import Mathlib

/-!
Verification of the repo CLI cache manager (multi-registry source cache).

This file gives a shallow embedding of the core of the repository:
the specification parser (src/parsing.ts), the spec display helper
(src/types.ts), the metadata index service (current snapshot: in-memory
cache, dirty flag, atomic temp-file-and-rename save), the cache path
resolver with the legacy case-insensitive fallback scan, and the
registry resolution engine (src/services/registry.ts).

Strings are modelled as lists of characters.  JavaScript regular
expressions are translated into the equivalent explicit string
functions; the translation notes the relevant semantics (greedy
character classes, the dot metacharacter excluding line terminators).
JavaScript toLowerCase is modelled by the ASCII Char.toLower map.
-/

-- ─── String utilities ────────────────────────────────────────────────────────

abbrev Str := List Char

def str (s : String) : Str := s.data

/-- ASCII lowercasing, the model of JS String.prototype.toLowerCase. -/
def lowerStr (l : Str) : Str := l.map Char.toLower

def isUpperAscii (c : Char) : Bool := 'A' ≤ c && c ≤ 'Z'

/-- Whitespace as trimmed by JS String.prototype.trim (common subset). -/
def isWS (c : Char) : Bool :=
  c = ' ' || c = '\t' || c = '\n' || c = '\r' ||
  c = Char.ofNat 11 || c = Char.ofNat 12 || c = Char.ofNat 0xa0 || c = Char.ofNat 0xfeff

def trimStr (l : Str) : Str :=
  ((l.dropWhile isWS).reverse.dropWhile isWS).reverse

def startsWithStr (p l : Str) : Bool := p.isPrefixOf l

/-- Model of the JS dot metacharacter (without the s flag): any char
except a line terminator. -/
def jsDot (c : Char) : Bool :=
  !(c = '\n' || c = '\r' || c = Char.ofNat 0x2028 || c = Char.ofNat 0x2029)

/-- Model of JS String.prototype.split with a one-character separator. -/
def splitAtChar (sep : Char) : Str → List Str
  | [] => [[]]
  | c :: rest =>
    if c = sep then [] :: splitAtChar sep rest
    else
      match splitAtChar sep rest with
      | [] => [[c]]
      | h :: t => (c :: h) :: t

-- ─── Data model (src/types.ts) ───────────────────────────────────────────────

inductive Registry
  | github
  | npm
  | pypi
  | crates
deriving DecidableEq, Repr

structure PackageSpec where
  registry : Registry
  name : Str
  version : Option Str
deriving DecidableEq, Repr

abbrev ParseResult := Except String PackageSpec

-- ─── Specification parser (src/parsing.ts) ───────────────────────────────────

/-- The name and ref captures of the anchored github ref regex
(one or more chars that are neither at-sign nor hash, then one of the
two delimiters, then one or more dot-matched chars up to the end). -/
def githubRefMatch (l : Str) : Option (Str × Str) :=
  let name := l.takeWhile (fun c => !(c = '@' || c = '#'))
  match l.drop name.length with
  | [] => none
  | _ :: ref =>
    if !name.isEmpty && (!ref.isEmpty && ref.all jsDot) then some (name, ref) else none

def parseGithubSpec (input : Str) : ParseResult :=
  match githubRefMatch input with
  | some (name, ref) =>
    if !(name.any (fun c => decide (c = '/'))) then
      .error "GitHub spec must be owner/repo format"
    else .ok { registry := .github, name := lowerStr name, version := some ref }
  | none =>
    if !(input.any (fun c => decide (c = '/'))) then
      .error "GitHub spec must be owner/repo format"
    else .ok { registry := .github, name := lowerStr input, version := none }

/-- The captures of the scoped-package regex, applied to the input with
its leading at-sign removed: the scope-and-package capture is the
at-sign plus one or more non-at-sign chars, optionally followed by an
at-sign and a nonempty dot-matched version. -/
def npmScopedMatch (t : Str) : Option (Str × Option Str) :=
  let scope := t.takeWhile (fun c => !(c = '@'))
  if scope.isEmpty then none
  else
    match t.drop scope.length with
    | [] => some ('@' :: scope, none)
    | _ :: ver =>
      if !ver.isEmpty && ver.all jsDot then some ('@' :: scope, some ver) else none

def parseNpmSpec (input : Str) : ParseResult :=
  if input.head? = some '@' then
    match npmScopedMatch input.tail with
    | none => .error "Invalid scoped npm package spec"
    | some (name, version) =>
      .ok { registry := .npm, name := name, version := version }
  else
    let parts := splitAtChar '@' input
    if parts.length > 2 then .error "Invalid npm package spec"
    else
      let name := parts.headD []
      let version := parts[1]?
      if name.isEmpty then .error "Package name is required"
      else .ok { registry := .npm, name := name, version := version }

/-- The captures of the pypi regex: a nonempty run of chars that are
neither at-sign nor equals, then optionally an at-sign or equals, an
optional further equals, and a nonempty dot-matched version (the
optional equals backtracks when taking it would leave the version
empty). -/
def pypiMatch (l : Str) : Option (Str × Option Str) :=
  let name := l.takeWhile (fun c => !(c = '@' || c = '='))
  if name.isEmpty then none
  else
    match l.drop name.length with
    | [] => some (name, none)
    | _ :: r2 =>
      if r2.head? = some '=' then
        if !r2.tail.isEmpty && r2.tail.all jsDot then some (name, some r2.tail)
        else if r2.all jsDot then some (name, some r2)
        else none
      else
        if !r2.isEmpty && r2.all jsDot then some (name, some r2) else none

def parsePypiSpec (input : Str) : ParseResult :=
  match pypiMatch input with
  | none => .error "Invalid PyPI package spec"
  | some (name, version) =>
    if name.isEmpty then .error "Package name is required"
    else .ok { registry := .pypi, name := trimStr name, version := version.map trimStr }

def parseCratesSpec (input : Str) : ParseResult :=
  let parts := splitAtChar '@' input
  if parts.length > 2 then .error "Invalid crates.io spec"
  else
    let name := parts.headD []
    let version := parts[1]?
    if name.isEmpty then .error "Crate name is required"
    else .ok { registry := .crates, name := trimStr name, version := version.map trimStr }

def parseSpecSync (input : Str) : ParseResult :=
  let trimmed := trimStr input
  if startsWithStr (str "npm:") trimmed then
    parseNpmSpec (trimmed.drop 4)
  else if startsWithStr (str "pypi:") trimmed || startsWithStr (str "pip:") trimmed then
    let plen : Nat := if startsWithStr (str "pypi:") trimmed then 5 else 4
    parsePypiSpec (trimmed.drop plen)
  else if startsWithStr (str "crates:") trimmed || startsWithStr (str "cargo:") trimmed
      || startsWithStr (str "rust:") trimmed then
    let plen : Nat := (trimmed.findIdx (fun c => c = ':')) + 1
    parseCratesSpec (trimmed.drop plen)
  else if startsWithStr (str "github:") trimmed then
    parseGithubSpec (trimmed.drop 7)
  else if trimmed.any (fun c => decide (c = '/')) && !(trimmed.head? = some '@') then
    parseGithubSpec trimmed
  else
    parseNpmSpec trimmed

-- ─── Spec display helper (src/types.ts, specToString) ────────────────────────

def registryName : Registry → Str
  | .github => str "github"
  | .npm => str "npm"
  | .pypi => str "pypi"
  | .crates => str "crates"

def specToString (spec : PackageSpec) : Str :=
  let pre := if spec.registry = .github then [] else registryName spec.registry ++ [':']
  let ver := match spec.version with
    | some v => '@' :: v
    | none => []
  pre ++ spec.name ++ ver

-- ─── Metadata index: specification equality (services metadata, current) ─────

def specMatches (a b : PackageSpec) : Bool :=
  if a.registry ≠ b.registry then false
  else
    let aName := if a.registry = .github then lowerStr a.name else a.name
    let bName := if b.registry = .github then lowerStr b.name else b.name
    if aName ≠ bName then false
    else decide (a.version.getD [] = b.version.getD [])

-- ─── C1 ──────────────────────────────────────────────────────────────────────

/-- C1: specification equality used by the metadata index holds iff the
registries are equal, the names are equal case-insensitively for the
github registry and exactly for every other registry, and the versions
are equal after treating an absent version as the empty string; in
particular the github pair with names Vercel/Next.js and vercel/next.js
matches while the npm pair with names Lodash and lodash does not. -/
theorem C1_specMatches_characterization :
    (∀ a b : PackageSpec,
      specMatches a b = true ↔
        (a.registry = b.registry ∧
         (if a.registry = Registry.github then lowerStr a.name = lowerStr b.name
          else a.name = b.name) ∧
         a.version.getD [] = b.version.getD []))
    ∧ specMatches { registry := .github, name := str "Vercel/Next.js", version := none }
        { registry := .github, name := str "vercel/next.js", version := none } = true
    ∧ specMatches { registry := .npm, name := str "Lodash", version := none }
        { registry := .npm, name := str "lodash", version := none } = false := by
  refine ⟨fun a b => ?_, by decide, by decide⟩
  obtain ⟨ra, na, va⟩ := a
  obtain ⟨rb, nb, vb⟩ := b
  by_cases hreg : ra = rb
  · subst hreg
    by_cases hgh : ra = Registry.github
    · subst hgh
      simp only [specMatches, ne_eq, not_true_eq_false, if_false, if_pos rfl, ite_not]
      by_cases hn : lowerStr na = lowerStr nb <;> simp [hn]
    · simp only [specMatches, ne_eq, not_true_eq_false, if_false, if_neg hgh, ite_not]
      by_cases hn : na = nb <;> simp [hn, hgh]
  · simp [specMatches, hreg]

-- ─── Metadata index: data and filesystem model ───────────────────────────────

structure RepoMetadata where
  spec : PackageSpec
  fetchedAt : Str
  lastAccessedAt : Str
  sizeBytes : Nat
  path : Str
deriving DecidableEq, Repr

structure MetadataIndex where
  version : Nat
  repos : List RepoMetadata
deriving DecidableEq, Repr

def emptyIndex : MetadataIndex := { version := 1, repos := [] }

/-- In-memory cache state of the metadata service. -/
structure CacheState where
  index : Option MetadataIndex
  dirty : Bool
deriving DecidableEq, Repr

/-- Filesystem model: a set of directories and a map of file contents. -/
structure MetaFs where
  dirs : List Str
  files : List (Str × Str)
deriving DecidableEq, Repr

def lookupFile (files : List (Str × Str)) (p : Str) : Option Str :=
  match files.find? (fun e => decide (e.1 = p)) with
  | some e => some e.2
  | none => none

def setFile (files : List (Str × Str)) (p c : Str) : List (Str × Str) :=
  (p, c) :: files.filter (fun e => !(decide (e.1 = p)))

def removeFile (files : List (Str × Str)) (p : Str) : List (Str × Str) :=
  files.filter (fun e => !(decide (e.1 = p)))

def fileContent (fs : MetaFs) (p : Str) : Option Str := lookupFile fs.files p

/-- Environment of the metadata service: the derived paths, the schema
encode and decode functions (external library calls, kept abstract as
functions), and the clock readings. -/
structure MetaEnv where
  cacheDir : Str
  metadataPath : Str
  enc : MetadataIndex → Str
  dec : Str → Option MetadataIndex
  nowISO : Str
  nowMs : Str

structure MetaState where
  cache : CacheState
  fs : MetaFs

/-- Fault injection for the three filesystem steps of saveToDisk. -/
structure Faults where
  mkdirOk : Bool
  writeOk : Bool
  renameOk : Bool
deriving DecidableEq, Repr

-- ─── Metadata index: operations (current snapshot of the service) ────────────

/-- loadFromDisk: missing file gives the empty index; decode failure is
swallowed (orElse) into the empty index as well. -/
def loadFromDisk (env : MetaEnv) (fs : MetaFs) : MetadataIndex :=
  match fileContent fs env.metadataPath with
  | none => emptyIndex
  | some content =>
    match env.dec content with
    | some i => i
    | none => emptyIndex

/-- load: returns the cached index when present, otherwise loads from
disk and fills the cache with a clean (not dirty) state. -/
def runLoad (env : MetaEnv) (st : MetaState) : MetadataIndex × MetaState :=
  match st.cache.index with
  | some i => (i, st)
  | none =>
    let i := loadFromDisk env st.fs
    (i, { st with cache := { index := some i, dirty := false } })

def tempPath (env : MetaEnv) : Str := env.metadataPath ++ (str ".tmp." ++ env.nowMs)

/-- The filesystem pipeline inside saveToDisk, before its orElse: ensure
the cache directory, write the encoded index to the temp path, rename
the temp path over the metadata path.  Returns the filesystem as left
at the point of a fault together with the failure flag. -/
def saveToDiskAttempt (env : MetaEnv) (f : Faults) (i : MetadataIndex) (fs : MetaFs) :
    MetaFs × Bool :=
  if !f.mkdirOk then (fs, true)
  else
    let fs1 : MetaFs := { fs with dirs := env.cacheDir :: fs.dirs }
    if !f.writeOk then (fs1, true)
    else
      let fs2 : MetaFs := { fs1 with files := setFile fs1.files (tempPath env) (env.enc i) }
      if !f.renameOk then (fs2, true)
      else
        match lookupFile fs2.files (tempPath env) with
        | none => (fs2, true)
        | some c =>
          ({ fs2 with
             files := setFile (removeFile fs2.files (tempPath env)) env.metadataPath c },
           false)

/-- saveToDisk: the attempt with every failure swallowed (orElse to a
no-op succeed). -/
def runSaveToDisk (env : MetaEnv) (f : Faults) (i : MetadataIndex) (fs : MetaFs) : MetaFs :=
  (saveToDiskAttempt env f i fs).1

/-- save: set the in-memory cache to the new index with the dirty flag
cleared, then saveToDisk.  The error channel of the source type is
empty, reflected by the Except value always being ok. -/
def runSaveE (env : MetaEnv) (f : Faults) (i : MetadataIndex) (st : MetaState) :
    MetaState × Except String Unit :=
  ({ cache := { index := some i, dirty := false },
     fs := runSaveToDisk env f i st.fs }, Except.ok ())

def runAddE (env : MetaEnv) (f : Faults) (m : RepoMetadata) (st : MetaState) :
    MetaState × Except String Unit :=
  let (i, st1) := runLoad env st
  let filtered := i.repos.filter (fun r => !specMatches r.spec m.spec)
  runSaveE env f { i with repos := filtered ++ [m] } st1

def runRemoveE (env : MetaEnv) (f : Faults) (spec : PackageSpec) (st : MetaState) :
    MetaState × Except String Bool :=
  let (i, st1) := runLoad env st
  let filtered := i.repos.filter (fun r => !specMatches r.spec spec)
  if filtered.length = i.repos.length then (st1, Except.ok false)
  else
    let (st2, _) := runSaveE env f { i with repos := filtered } st1
    (st2, Except.ok true)

/-- updateAccessTime: load, rewrite lastAccessedAt of matching entries,
then updateCache (set the cache with the dirty flag, no disk write). -/
def runUpdateAccessTime (env : MetaEnv) (spec : PackageSpec) (st : MetaState) : MetaState :=
  let (i, st1) := runLoad env st
  let updated := i.repos.map (fun r =>
    if specMatches r.spec spec then { r with lastAccessedAt := env.nowISO } else r)
  { st1 with cache := { index := some { i with repos := updated }, dirty := true } }

-- ─── File map lemmas ─────────────────────────────────────────────────────────

theorem find?_filter_other (files : List (Str × Str)) (p q : Str) (h : q ≠ p) :
    (files.filter (fun e => !(decide (e.1 = p)))).find? (fun e => decide (e.1 = q))
      = files.find? (fun e => decide (e.1 = q)) := by
  have hpq : decide (p = q) = false := decide_eq_false (fun g => h g.symm)
  have hqp : decide (q = p) = false := decide_eq_false h
  induction files with
  | nil => rfl
  | cons e rest ih =>
    by_cases hp : e.1 = p
    · have hq : decide (e.1 = q) = false := by
        rw [hp]; exact hpq
      simp [List.filter, List.find?, hp, hq, hpq, hqp, ih]
    · by_cases hq : e.1 = q
      · simp [List.filter, List.find?, hp, hq, hpq, hqp]
      · simp [List.filter, List.find?, hp, hq, hpq, hqp, ih]

theorem lookupFile_setFile_same (files : List (Str × Str)) (p c : Str) :
    lookupFile (setFile files p c) p = some c := by
  simp [lookupFile, setFile, List.find?]

theorem lookupFile_setFile_ne (files : List (Str × Str)) (p c q : Str) (h : q ≠ p) :
    lookupFile (setFile files p c) q = lookupFile files q := by
  unfold lookupFile setFile
  rw [List.find?]
  have : decide ((p, c).1 = q) = false := by
    simp only [decide_eq_false_iff_not]
    exact fun g => h g.symm
  rw [this]
  rw [find?_filter_other files p q h]

theorem lookupFile_removeFile_same (files : List (Str × Str)) (p : Str) :
    lookupFile (removeFile files p) p = none := by
  unfold lookupFile removeFile
  have : (files.filter (fun e => !(decide (e.1 = p)))).find? (fun e => decide (e.1 = p)) = none := by
    rw [List.find?_eq_none]
    intro e he
    have := List.of_mem_filter he
    simpa using this
  rw [this]

theorem lookupFile_removeFile_ne (files : List (Str × Str)) (p q : Str) (h : q ≠ p) :
    lookupFile (removeFile files p) q = lookupFile files q := by
  unfold lookupFile removeFile
  rw [find?_filter_other files p q h]

theorem append_ne_self (l r : Str) (h : r ≠ []) : l ++ r ≠ l := by
  intro g
  have : (l ++ r).length = l.length := by rw [g]
  rw [List.length_append] at this
  have : r.length = 0 := by omega
  exact h (List.length_eq_zero.mp this)

theorem tempPath_ne (env : MetaEnv) : tempPath env ≠ env.metadataPath := by
  unfold tempPath
  apply append_ne_self
  intro g
  have : (str ".tmp." ++ env.nowMs).length = 0 := by rw [g]; rfl
  rw [List.length_append] at this
  simp [str] at this

-- ─── C2 ──────────────────────────────────────────────────────────────────────

/-- The filesystem after only the ensure-directory step of saveToDisk. -/
def saveMkdirOnly (env : MetaEnv) (fs : MetaFs) : MetaFs :=
  { fs with dirs := env.cacheDir :: fs.dirs }

/-- The filesystem after the ensure-directory step and a temp-file write
of which only the first j bytes completed. -/
def saveTempWritten (env : MetaEnv) (i : MetadataIndex) (j : Nat) (fs : MetaFs) : MetaFs :=
  { saveMkdirOnly env fs with
    files := setFile fs.files (tempPath env) ((env.enc i).take j) }

/-- C2: saveToDisk ensures the cache directory, serializes the index,
writes the bytes to a temporary file next to the metadata file and then
renames it over the metadata path; a save interrupted at any point
before the rename (after the mkdir, or mid-way through the temp-file
write) leaves the metadata file content byte-for-byte unchanged and the
next load from disk returns the previous durable state, while a
completed save leaves exactly the serialized index at the metadata path
and no temp file. -/
theorem C2_atomic_save (env : MetaEnv) (i : MetadataIndex) (fs : MetaFs) (j : Nat) :
    (fileContent (saveMkdirOnly env fs) env.metadataPath = fileContent fs env.metadataPath
     ∧ fileContent (saveTempWritten env i j fs) env.metadataPath
        = fileContent fs env.metadataPath
     ∧ loadFromDisk env (saveMkdirOnly env fs) = loadFromDisk env fs
     ∧ loadFromDisk env (saveTempWritten env i j fs) = loadFromDisk env fs)
    ∧ (fileContent (runSaveToDisk env ⟨true, true, true⟩ i fs) env.metadataPath
        = some (env.enc i)
       ∧ lookupFile (runSaveToDisk env ⟨true, true, true⟩ i fs).files (tempPath env) = none) := by
  have hne : env.metadataPath ≠ tempPath env := fun g => tempPath_ne env g.symm
  have h1 : fileContent (saveMkdirOnly env fs) env.metadataPath
      = fileContent fs env.metadataPath := rfl
  have h2 : fileContent (saveTempWritten env i j fs) env.metadataPath
      = fileContent fs env.metadataPath := by
    unfold saveTempWritten saveMkdirOnly fileContent
    exact lookupFile_setFile_ne fs.files (tempPath env) ((env.enc i).take j)
      env.metadataPath hne
  refine ⟨⟨h1, h2, ?_, ?_⟩, ?_, ?_⟩
  · unfold loadFromDisk
    rw [h1]
  · unfold loadFromDisk
    rw [h2]
  · unfold runSaveToDisk saveToDiskAttempt
    dsimp only
    simp only [Bool.not_true, Bool.false_eq_true, if_false]
    rw [lookupFile_setFile_same]
    unfold fileContent
    dsimp only
    rw [lookupFile_setFile_same]
  · unfold runSaveToDisk saveToDiskAttempt
    dsimp only
    simp only [Bool.not_true, Bool.false_eq_true, if_false]
    rw [lookupFile_setFile_same]
    dsimp only
    rw [lookupFile_setFile_ne _ _ _ _ (tempPath_ne env), lookupFile_removeFile_same]

-- ─── C6 ──────────────────────────────────────────────────────────────────────

/-- C6: updateAccessTime leaves the filesystem untouched during the
call, marks the in-memory cache dirty, and produces an index of the
same version and length in which every entry keeps its spec, fetchedAt,
sizeBytes and path, every non-matching entry is completely unchanged,
and every matching entry has its lastAccessedAt set to the current
time. -/
theorem C6_updateAccessTime_frame (env : MetaEnv) (spec : PackageSpec) (st : MetaState) :
    (runUpdateAccessTime env spec st).fs = st.fs
    ∧ (runUpdateAccessTime env spec st).cache.dirty = true
    ∧ (∀ i2 : MetadataIndex, (runUpdateAccessTime env spec st).cache.index = some i2 →
        i2.version = (runLoad env st).1.version
        ∧ i2.repos.length = (runLoad env st).1.repos.length
        ∧ (∀ (k : Nat) (r r2 : RepoMetadata),
            (runLoad env st).1.repos[k]? = some r → i2.repos[k]? = some r2 →
            r2.spec = r.spec ∧ r2.fetchedAt = r.fetchedAt ∧ r2.sizeBytes = r.sizeBytes
            ∧ r2.path = r.path
            ∧ (specMatches r.spec spec = false → r2 = r)
            ∧ (specMatches r.spec spec = true → r2.lastAccessedAt = env.nowISO))) := by
  have hfs : (runLoad env st).2.fs = st.fs := by
    unfold runLoad
    cases st.cache.index <;> rfl
  refine ⟨?_, ?_, ?_⟩
  · unfold runUpdateAccessTime
    exact hfs
  · unfold runUpdateAccessTime
    rfl
  · intro i2 hi2
    have hidx : (runUpdateAccessTime env spec st).cache.index
        = some { version := (runLoad env st).1.version,
                 repos := (runLoad env st).1.repos.map (fun r =>
                   if specMatches r.spec spec then { r with lastAccessedAt := env.nowISO }
                   else r) } := by
      unfold runUpdateAccessTime
      rfl
    rw [hidx] at hi2
    obtain rfl : _ = i2 := Option.some.inj hi2
    refine ⟨rfl, by simp, ?_⟩
    intro k r r2 hr hr2
    simp only at hr2
    rw [List.getElem?_map, hr] at hr2
    simp only [Option.map_some'] at hr2
    by_cases hm : specMatches r.spec spec
    · rw [if_pos hm] at hr2
      cases hr2
      refine ⟨rfl, rfl, rfl, rfl, ?_, fun _ => rfl⟩
      intro hfalse
      rw [hm] at hfalse
      cases hfalse
    · rw [if_neg hm] at hr2
      cases hr2
      refine ⟨rfl, rfl, rfl, rfl, fun _ => rfl, ?_⟩
      intro htrue
      exact absurd htrue hm


-- concrete data for the C6 witness

def c6entry1SrcW : RepoMetadata :=
  { spec := { registry := .npm, name := str "lodash", version := none },
    fetchedAt := str "2024-01-01T00:00:00.000Z",
    lastAccessedAt := str "2024-01-01T00:00:00.000Z",
    sizeBytes := 10, path := str "/c/lodash/default" }

def c6entry2SrcW : RepoMetadata :=
  { spec := { registry := .npm, name := str "react", version := none },
    fetchedAt := str "2024-01-01T00:00:00.000Z",
    lastAccessedAt := str "2024-01-01T00:00:00.000Z",
    sizeBytes := 20, path := str "/c/react/default" }

def c6envW : MetaEnv :=
  { cacheDir := str "/c", metadataPath := str "/c/metadata.json",
    enc := fun _ => str "x", dec := fun _ => none,
    nowISO := str "2024-01-02T00:00:00.000Z", nowMs := str "1700000000000" }

def c6specW : PackageSpec := { registry := .npm, name := str "lodash", version := none }

def c6stW : MetaState :=
  { cache := { index := some { version := 1, repos := [c6entry1SrcW, c6entry2SrcW] },
               dirty := false },
    fs := { dirs := [], files := [] } }

def c6entry1W : RepoMetadata :=
  { c6entry1SrcW with lastAccessedAt := str "2024-01-02T00:00:00.000Z" }

def c6entry2W : RepoMetadata := c6entry2SrcW

def c6idx2W : MetadataIndex := { version := 1, repos := [c6entry1W, c6entry2W] }

/-- Witness for C6 at a concrete state with one matching and one
non-matching entry: the filesystem is untouched, the cache is dirty,
and the matching entry has its access time rewritten while the
non-matching entry is unchanged. -/
theorem C6_updateAccessTime_frame_witness :
    (runUpdateAccessTime c6envW c6specW c6stW).fs = c6stW.fs
    ∧ (runUpdateAccessTime c6envW c6specW c6stW).cache.dirty = true
    ∧ c6entry1W.lastAccessedAt = c6envW.nowISO
    ∧ c6entry2W = c6entry2SrcW := by
  obtain ⟨h1, h2, h3⟩ := C6_updateAccessTime_frame c6envW c6specW c6stW
  obtain ⟨hv, hlen, hpt⟩ := h3 c6idx2W rfl
  refine ⟨h1, h2, ?_, ?_⟩
  · exact (hpt 0 c6entry1SrcW c6entry1W rfl rfl).2.2.2.2.2 rfl
  · exact (hpt 1 c6entry2SrcW c6entry2W rfl rfl).2.2.2.2.1 rfl

-- ─── C7 ──────────────────────────────────────────────────────────────────────

-- concrete data for the C7 counterexample and witness

def c7envW : MetaEnv :=
  { cacheDir := str "/c", metadataPath := str "/c/metadata.json",
    enc := fun _ => str "NEW", dec := fun _ => none,
    nowISO := str "2024-01-02T00:00:00.000Z", nowMs := str "1700000000000" }

def c7entryW : RepoMetadata :=
  { spec := { registry := .npm, name := str "lodash", version := none },
    fetchedAt := str "2024-01-01T00:00:00.000Z",
    lastAccessedAt := str "2024-01-01T00:00:00.000Z",
    sizeBytes := 10, path := str "/c/lodash/default" }

def c7stW : MetaState :=
  { cache := { index := none, dirty := false },
    fs := { dirs := [str "/c"], files := [(str "/c/metadata.json", str "OLD")] } }

def c7writeFault : Faults := { mkdirOk := true, writeOk := false, renameOk := true }

/-- C7 counterexample: with a concrete failing disk write during add,
the write pipeline inside saveToDisk really fails, yet the add
operation reports success and the durable metadata file still holds its
previous bytes — the persistence error did not propagate to the
caller, contradicting the claim. -/
theorem C7_propagation_counterexample :
    (saveToDiskAttempt c7envW c7writeFault { version := 1, repos := [c7entryW] } c7stW.fs).2
      = true
    ∧ (runAddE c7envW c7writeFault c7entryW c7stW).2 = Except.ok ()
    ∧ fileContent (runAddE c7envW c7writeFault c7entryW c7stW).1.fs c7envW.metadataPath
        = some (str "OLD") := by
  refine ⟨rfl, rfl, rfl⟩

/-- C7 amended: persistence failures during the write paths (add,
remove, save) are swallowed by the orElse in saveToDisk: each operation
always reports success, and when the temp-file write or the rename
fails the durable metadata file is byte-for-byte unchanged while the
in-memory cache has already been updated to the new index. -/
theorem C7_swallowed_write_failures :
    (∀ (env : MetaEnv) (f : Faults) (m : RepoMetadata) (st : MetaState),
      (runAddE env f m st).2 = Except.ok ())
    ∧ (∀ (env : MetaEnv) (f : Faults) (spec : PackageSpec) (st : MetaState),
        (runRemoveE env f spec st).2.isOk = true)
    ∧ (∀ (env : MetaEnv) (f : Faults) (i : MetadataIndex) (st : MetaState),
        (runSaveE env f i st).2 = Except.ok ())
    ∧ (∀ (env : MetaEnv) (f : Faults) (i : MetadataIndex) (st : MetaState),
        f.writeOk = false ∨ f.renameOk = false →
        fileContent (runSaveE env f i st).1.fs env.metadataPath
          = fileContent st.fs env.metadataPath
        ∧ (runSaveE env f i st).1.cache.index = some i
        ∧ (runSaveE env f i st).1.cache.dirty = false) := by
  refine ⟨fun env f m st => rfl, ?_, fun env f i st => rfl, ?_⟩
  · intro env f spec st
    unfold runRemoveE
    obtain ⟨i, st1⟩ := runLoad env st
    dsimp only
    split
    · rfl
    · rfl
  · intro env f i st hf
    refine ⟨?_, rfl, rfl⟩
    unfold runSaveE runSaveToDisk saveToDiskAttempt
    dsimp only
    by_cases hm : f.mkdirOk
    · rw [hm]
      cases hw : f.writeOk
      · simp only [Bool.not_true, Bool.not_false, Bool.false_eq_true, if_false, if_true]
        rfl
      · have hr : f.renameOk = false := by
          rcases hf with h | h
          · rw [hw] at h; cases h
          · exact h
        rw [hr]
        simp only [Bool.not_true, Bool.not_false, Bool.false_eq_true, if_false, if_true]
        unfold fileContent
        dsimp only
        exact lookupFile_setFile_ne _ _ _ _ (fun g => tempPath_ne env g.symm)
    · rw [Bool.not_eq_true] at hm
      rw [hm]
      simp only [Bool.not_false, if_true]

/-- Witness for the amended C7 at the concrete failing-write add. -/
theorem C7_swallowed_write_failures_witness :
    fileContent (runSaveE c7envW c7writeFault { version := 1, repos := [c7entryW] } c7stW).1.fs
        c7envW.metadataPath
      = fileContent c7stW.fs c7envW.metadataPath
    ∧ (runSaveE c7envW c7writeFault { version := 1, repos := [c7entryW] } c7stW).1.cache.index
        = some { version := 1, repos := [c7entryW] } := by
  have h := C7_swallowed_write_failures.2.2.2 c7envW c7writeFault
    { version := 1, repos := [c7entryW] } c7stW (Or.inl rfl)
  exact ⟨h.1, h.2.1⟩

-- ─── Cache path resolver (current snapshot, legacy fallback scan) ────────────

/-- Filesystem oracle for the cache path resolver: existence checks,
directory listings and the directory stat used by the fallback scan. -/
structure CacheFs where
  pathExists : Str → Bool
  listing : Str → List Str
  isDirAt : Str → Bool

def joinPath (a b : Str) : Str := a ++ '/' :: b

/-- The legacy fallback scan of getPath: for each entry of the cache
root whose lowercased name equals the owner segment, stat it, skip it
unless it is a directory, and look for a child whose lowercased name
equals the repo segment; on a hit return the legacy-cased path, on a
miss continue with the remaining root entries. -/
def scanEntries (fs : CacheFs) (cacheDir : Str) (owner : Str) (repo? : Option Str) :
    List Str → Option Str
  | [] => none
  | entry :: rest =>
    if lowerStr entry = owner then
      let ownerPath := joinPath cacheDir entry
      if !(fs.isDirAt ownerPath) then scanEntries fs cacheDir owner repo? rest
      else
        match (fs.listing ownerPath).find? (fun re =>
            match repo? with
            | some repo => decide (lowerStr re = repo)
            | none => false) with
        | some re => some (joinPath ownerPath re)
        | none => scanEntries fs cacheDir owner repo? rest
    else scanEntries fs cacheDir owner repo? rest

/-- getPath for the github registry: fast path when the normalized path
exists, otherwise the legacy case-insensitive fallback scan, otherwise
the normalized path. -/
def getPathGithub (fs : CacheFs) (cacheDir : Str) (name : Str) : Str :=
  let normalizedPath := joinPath cacheDir name
  if fs.pathExists normalizedPath then normalizedPath
  else
    let parts := splitAtChar '/' name
    let owner := parts.headD []
    let repo? := parts[1]?
    if !(fs.pathExists cacheDir) then normalizedPath
    else
      match scanEntries fs cacheDir owner repo? (fs.listing cacheDir) with
      | some p => p
      | none => normalizedPath

/-- getPath over all registries: github uses the fallback resolver, the
package registries append the version (or default) to the name path. -/
def getPath (fs : CacheFs) (cacheDir : Str) (spec : PackageSpec) : Str :=
  let version := spec.version.getD (str "default")
  match spec.registry with
  | .github => getPathGithub fs cacheDir spec.name
  | .npm => joinPath (joinPath cacheDir spec.name) version
  | .pypi => joinPath (joinPath cacheDir spec.name) version
  | .crates => joinPath (joinPath cacheDir spec.name) version

/-- The claim-side resolver: like getPathGithub but comparing both
sides of the owner and repo comparisons case-insensitively, following
the words of the specification. -/
def scanEntriesCI (fs : CacheFs) (cacheDir : Str) (owner : Str) (repo? : Option Str) :
    List Str → Option Str
  | [] => none
  | entry :: rest =>
    if lowerStr entry = lowerStr owner then
      let ownerPath := joinPath cacheDir entry
      if !(fs.isDirAt ownerPath) then scanEntriesCI fs cacheDir owner repo? rest
      else
        match (fs.listing ownerPath).find? (fun re =>
            match repo? with
            | some repo => decide (lowerStr re = lowerStr repo)
            | none => false) with
        | some re => some (joinPath ownerPath re)
        | none => scanEntriesCI fs cacheDir owner repo? rest
    else scanEntriesCI fs cacheDir owner repo? rest

def getPathGithubCI (fs : CacheFs) (cacheDir : Str) (name : Str) : Str :=
  let normalizedPath := joinPath cacheDir name
  if fs.pathExists normalizedPath then normalizedPath
  else
    let parts := splitAtChar '/' name
    let owner := parts.headD []
    let repo? := parts[1]?
    if !(fs.pathExists cacheDir) then normalizedPath
    else
      match scanEntriesCI fs cacheDir owner repo? (fs.listing cacheDir) with
      | some p => p
      | none => normalizedPath

-- ─── Case lemmas ─────────────────────────────────────────────────────────────

theorem charLe_iff_toNat (a b : Char) : a ≤ b ↔ a.toNat ≤ b.toNat := by
  rw [Char.le_def, UInt32.le_def, BitVec.le_def]
  rfl

theorem toNat_ofNat_valid (n : Nat) (hv : n.isValidChar) : (Char.ofNat n).toNat = n := by
  rw [Char.ofNat, dif_pos hv]
  simp [Char.ofNatAux, Char.toNat, UInt32.toNat]

theorem isUpper_toLower (c : Char) : isUpperAscii c.toLower = false := by
  unfold Char.toLower
  show isUpperAscii (if c.toNat >= 65 ∧ c.toNat <= 90 then Char.ofNat (c.toNat + 32) else c)
    = false
  split
  · rename_i h
    have hv : (c.toNat + 32).isValidChar := Or.inl (by omega)
    have ht := toNat_ofNat_valid (c.toNat + 32) hv
    unfold isUpperAscii
    rw [Bool.and_eq_false_iff]
    right
    rw [decide_eq_false_iff_not, charLe_iff_toNat, ht]
    show ¬ _ ≤ (90 : Nat)
    omega
  · rename_i h
    unfold isUpperAscii
    rw [Bool.and_eq_false_iff]
    by_cases h1 : 'A' ≤ c
    · right
      rw [decide_eq_false_iff_not, charLe_iff_toNat]
      rw [charLe_iff_toNat] at h1
      have : (65 : Nat) ≤ c.toNat := h1
      show ¬ _ ≤ (90 : Nat)
      omega
    · left
      rw [decide_eq_false_iff_not]
      exact h1

def hasUpperStr (l : Str) : Bool := l.any isUpperAscii

theorem hasUpper_lowerStr (l : Str) : hasUpperStr (lowerStr l) = false := by
  unfold hasUpperStr lowerStr
  rw [List.any_eq_false]
  intro c hc
  rw [List.mem_map] at hc
  obtain ⟨a, _, rfl⟩ := hc
  rw [isUpper_toLower]
  exact Bool.false_ne_true

theorem lowerStr_ne_of_hasUpper (e target : Str) (h : hasUpperStr target = true) :
    lowerStr e ≠ target := by
  intro g
  have := hasUpper_lowerStr e
  rw [g, h] at this
  cases this

-- ─── Scan lemmas ─────────────────────────────────────────────────────────────

theorem scanEntries_eq_CI (fs : CacheFs) (cd owner : Str) (repo? : Option Str)
    (howner : lowerStr owner = owner)
    (hrepo : ∀ r, repo? = some r → lowerStr r = r) (entries : List Str) :
    scanEntries fs cd owner repo? entries = scanEntriesCI fs cd owner repo? entries := by
  cases hq : repo? with
  | none =>
    induction entries with
    | nil => rfl
    | cons e rest ih =>
      simp only [scanEntries, scanEntriesCI, howner, ih]
  | some r =>
    have hlow : lowerStr r = r := hrepo r hq
    induction entries with
    | nil => rfl
    | cons e rest ih =>
      simp only [scanEntries, scanEntriesCI, howner, hlow, ih]

theorem scanEntries_none_ownerUpper (fs : CacheFs) (cd owner : Str) (repo? : Option Str)
    (h : hasUpperStr owner = true) (entries : List Str) :
    scanEntries fs cd owner repo? entries = none := by
  induction entries with
  | nil => rfl
  | cons e rest ih =>
    unfold scanEntries
    rw [if_neg (lowerStr_ne_of_hasUpper e owner h)]
    exact ih

theorem scanEntries_none_repoUpper (fs : CacheFs) (cd owner : Str) (repo? : Option Str)
    (r : Str) (hr : repo? = some r) (h : hasUpperStr r = true) (entries : List Str) :
    scanEntries fs cd owner repo? entries = none := by
  subst hr
  have hfind : ∀ l : List Str,
      l.find? (fun re => decide (lowerStr re = r)) = none := by
    intro l
    rw [List.find?_eq_none]
    intro re _
    simp only [decide_eq_true_eq]
    exact lowerStr_ne_of_hasUpper re r h
  induction entries with
  | nil => rfl
  | cons e rest ih =>
    unfold scanEntries
    dsimp only
    by_cases he : lowerStr e = owner
    · rw [if_pos he]
      by_cases hd : fs.isDirAt (joinPath cd e)
      · rw [hd]
        simp only [Bool.not_true, Bool.false_eq_true, if_false]
        rw [hfind]
        exact ih
      · rw [Bool.not_eq_true] at hd
        rw [hd]
        simp only [Bool.not_false, if_true]
        exact ih
    · rw [if_neg he]
      exact ih

-- ─── C4 ──────────────────────────────────────────────────────────────────────

-- concrete filesystems for C4

def c4fsX : CacheFs :=
  { pathExists := fun p => decide (p = str "/root") || decide (p = str "/root/vercel")
      || decide (p = str "/root/vercel/next.js"),
    listing := fun p =>
      if p = str "/root" then [str "vercel"]
      else if p = str "/root/vercel" then [str "next.js"]
      else [],
    isDirAt := fun p => decide (p = str "/root") || decide (p = str "/root/vercel") }

def c4fsW : CacheFs :=
  { pathExists := fun p => decide (p = str "/root") || decide (p = str "/root/Vercel")
      || decide (p = str "/root/Vercel/Next.js"),
    listing := fun p =>
      if p = str "/root" then [str "Vercel"]
      else if p = str "/root/Vercel" then [str "Next.js"]
      else [],
    isDirAt := fun p => decide (p = str "/root") || decide (p = str "/root/Vercel") }

/-- C4 counterexample: the fallback scan is not case-insensitive on the
query side.  With an on-disk entry vercel/next.js and the queried name
Vercel/next.js (uppercase owner segment), a case-insensitive scan as
claimed would return the on-disk cased path, but the resolver returns
the normalized path: the resolver and the claimed case-insensitive
resolver disagree at this input. -/
theorem C4_legacy_scan_counterexample :
    getPathGithub c4fsX (str "/root") (str "Vercel/next.js")
      = joinPath (str "/root") (str "Vercel/next.js")
    ∧ getPathGithubCI c4fsX (str "/root") (str "Vercel/next.js")
      = str "/root/vercel/next.js"
    ∧ getPathGithub c4fsX (str "/root") (str "Vercel/next.js")
      ≠ getPathGithubCI c4fsX (str "/root") (str "Vercel/next.js") := by
  refine ⟨by decide, by decide, by decide⟩

/-- C4 amended: when the normalized path does not exist the resolver
scans the cache root for an entry whose lowercased name equals the
owner segment as written, then that directory for an entry whose
lowercased name equals the repo segment as written; this agrees with
the claimed case-insensitive scan exactly when the owner and repo
segments are already lowercase (as parser-produced github names are),
and the resolver never creates directories (it is a pure read of the
filesystem oracle).  In particular, with an on-disk entry
/root/Vercel/Next.js and none at /root/vercel/next.js, resolving the
github spec vercel/next.js returns the legacy-cased path. -/
theorem C4_legacy_scan_lowercase (fs : CacheFs) (cd name : Str)
    (howner : lowerStr ((splitAtChar '/' name).headD []) = (splitAtChar '/' name).headD [])
    (hrepo : ∀ r, (splitAtChar '/' name)[1]? = some r → lowerStr r = r) :
    getPathGithub fs cd name = getPathGithubCI fs cd name
    ∧ getPath c4fsW (str "/root")
        { registry := .github, name := str "vercel/next.js", version := none }
      = str "/root/Vercel/Next.js" := by
  refine ⟨?_, by decide⟩
  unfold getPathGithub getPathGithubCI
  dsimp only
  rw [scanEntries_eq_CI fs cd _ _ howner hrepo]

/-- Witness for the amended C4 at the all-lowercase query against the
legacy-cased filesystem. -/
theorem C4_legacy_scan_lowercase_witness :
    getPathGithub c4fsW (str "/root") (str "vercel/next.js")
      = getPathGithubCI c4fsW (str "/root") (str "vercel/next.js") :=
  (C4_legacy_scan_lowercase c4fsW (str "/root") (str "vercel/next.js")
    (by decide) (by decide)).1

-- ─── C10 ─────────────────────────────────────────────────────────────────────

-- concrete filesystem for the C10 counterexample

def c10fsX : CacheFs :=
  { pathExists := fun p => decide (p = str "/root") || decide (p = str "/root/a")
      || decide (p = str "/root/a/b"),
    listing := fun p =>
      if p = str "/root" then [str "a"]
      else if p = str "/root/a" then [str "b"]
      else [],
    isDirAt := fun p => decide (p = str "/root") || decide (p = str "/root/a") }

def c10fsW : CacheFs :=
  { pathExists := fun p => decide (p = str "/root") || decide (p = str "/root/x")
      || decide (p = str "/root/x/y"),
    listing := fun p =>
      if p = str "/root" then [str "x"]
      else if p = str "/root/x" then [str "y"]
      else [],
    isDirAt := fun p => decide (p = str "/root") || decide (p = str "/root/x") }

/-- C10 counterexample: the name a/b/C contains an uppercase character,
yet the fallback scan only looks at the first two slash-separated
segments (a and b), so it does match a directory entry and the resolver
returns a path different from the normalized path — refuting the claim
that any uppercase character in the name prevents a fallback match. -/
theorem C10_uppercase_counterexample :
    hasUpperStr (str "a/b/C") = true
    ∧ getPathGithub c10fsX (str "/root") (str "a/b/C") = str "/root/a/b"
    ∧ getPathGithub c10fsX (str "/root") (str "a/b/C")
        ≠ joinPath (str "/root") (str "a/b/C") := by
  refine ⟨by decide, by decide, by decide⟩

/-- C10 amended: in the fallback scan directory entries are lowercased
before comparison while the owner and repo segments of the queried name
are compared as written; hence whenever the owner segment or the repo
segment (the first two slash-separated components of the name) contains
an uppercase ascii letter, the scan can never match any directory entry
and the resolver returns the normalized path, so the legacy fallback is
effective only for queries whose first two segments are all-lowercase. -/
theorem C10_uppercase_segments_never_match (fs : CacheFs) (cd name : Str)
    (h : hasUpperStr ((splitAtChar '/' name).headD []) = true
      ∨ ∃ r, (splitAtChar '/' name)[1]? = some r ∧ hasUpperStr r = true) :
    getPathGithub fs cd name = joinPath cd name := by
  unfold getPathGithub
  dsimp only
  by_cases hex : fs.pathExists (joinPath cd name)
  · rw [if_pos hex]
  · rw [if_neg hex]
    by_cases hcd : fs.pathExists cd
    · rw [hcd]
      simp only [Bool.not_true, Bool.false_eq_true, if_false]
      rcases h with h | ⟨r, hr, h⟩
      · rw [scanEntries_none_ownerUpper fs cd _ _ h]
      · rw [scanEntries_none_repoUpper fs cd _ _ r hr h]
    · rw [Bool.not_eq_true] at hcd
      rw [hcd]
      simp only [Bool.not_false, if_true]

/-- Witness for the amended C10: the query X/y has an uppercase owner
segment, so even though the filesystem holds a matching lowercase entry
x/y the resolver returns the normalized path. -/
theorem C10_uppercase_segments_never_match_witness :
    getPathGithub c10fsW (str "/root") (str "X/y")
      = joinPath (str "/root") (str "X/y") :=
  C10_uppercase_segments_never_match c10fsW (str "/root") (str "X/y")
    (Or.inl (by decide))

-- ─── Parser decomposition lemmas ─────────────────────────────────────────────

theorem splitAtChar_ne_nil (sep : Char) (l : Str) : splitAtChar sep l ≠ [] := by
  cases l with
  | nil => simp [splitAtChar]
  | cons c rest =>
    unfold splitAtChar
    by_cases hc : c = sep
    · rw [if_pos hc]
      simp
    · rw [if_neg hc]
      cases splitAtChar sep rest <;> simp

theorem takeWhile_append_drop (p : Char → Bool) (l : Str) :
    l.takeWhile p ++ l.drop (l.takeWhile p).length = l := by
  induction l with
  | nil => rfl
  | cons c rest ih =>
    rw [List.takeWhile_cons]
    by_cases hc : p c
    · rw [if_pos hc]
      simp only [List.length_cons, List.drop_succ_cons, List.cons_append]
      rw [ih]
    · rw [if_neg hc]
      rfl

theorem startsWith_decomp (p l : Str) (h : startsWithStr p l = true) :
    l = p ++ l.drop p.length := by
  unfold startsWithStr at h
  have hp : p <+: l := List.isPrefixOf_iff_prefix.mp h
  obtain ⟨t, ht⟩ := hp
  rw [← ht, List.drop_left]

theorem splitAtChar_head_decomp (sep : Char) (l : Str) :
    ∃ rest, l = (splitAtChar sep l).headD [] ++ rest := by
  induction l with
  | nil => exact ⟨[], rfl⟩
  | cons c t ih =>
    unfold splitAtChar
    by_cases hc : c = sep
    · rw [if_pos hc]
      exact ⟨c :: t, rfl⟩
    · rw [if_neg hc]
      obtain ⟨rest, hrest⟩ := ih
      cases hs : splitAtChar sep t with
      | nil => exact absurd hs (splitAtChar_ne_nil sep t)
      | cons h2 t2 =>
        refine ⟨rest, ?_⟩
        rw [hs] at hrest
        simp only [List.headD_cons] at hrest ⊢
        rw [List.cons_append, ← hrest]

theorem parseNpmSpec_registry (input : Str) (s : PackageSpec)
    (h : parseNpmSpec input = .ok s) : s.registry = .npm := by
  unfold parseNpmSpec at h
  dsimp only at h
  split at h
  · split at h
    · cases h
    · cases h
      rfl
  · split at h
    · cases h
    · split at h
      · cases h
      · cases h
        rfl

theorem parsePypiSpec_registry (input : Str) (s : PackageSpec)
    (h : parsePypiSpec input = .ok s) : s.registry = .pypi := by
  unfold parsePypiSpec at h
  split at h
  · cases h
  · split at h
    · cases h
    · cases h
      rfl

theorem parseCratesSpec_registry (input : Str) (s : PackageSpec)
    (h : parseCratesSpec input = .ok s) : s.registry = .crates := by
  unfold parseCratesSpec at h
  dsimp only at h
  split at h
  · cases h
  · split at h
    · cases h
    · cases h
      rfl

theorem head_eq_cons (l : Str) (c : Char) (h : l.head? = some c) : l = c :: l.tail := by
  cases l with
  | nil => cases h
  | cons a t =>
    cases h
    rfl

theorem npmScopedMatch_decomp (t : Str) (nm : Str) (ver : Option Str)
    (h : npmScopedMatch t = some (nm, ver)) :
    ∃ rest, '@' :: t = nm ++ rest := by
  refine ⟨t.drop (t.takeWhile (fun c => !(c = '@'))).length, ?_⟩
  have hnm : nm = '@' :: t.takeWhile (fun c => !(c = '@')) := by
    unfold npmScopedMatch at h
    dsimp only at h
    split at h
    · cases h
    · split at h
      · cases h
        rfl
      · split at h
        · cases h
          rfl
        · cases h
  rw [hnm, List.cons_append, takeWhile_append_drop]

theorem pypiMatch_name (l : Str) (nm : Str) (ver : Option Str)
    (h : pypiMatch l = some (nm, ver)) :
    nm = l.takeWhile (fun c => !(c = '@' || c = '=')) := by
  unfold pypiMatch at h
  dsimp only at h
  split at h
  · cases h
  · split at h
    · cases h
      rfl
    · split at h
      · split at h
        · cases h
          rfl
        · split at h
          · cases h
            rfl
          · cases h
      · split at h
        · cases h
          rfl
        · cases h

/-- The name capture of the github ref regex: the part before the first
ref delimiter when the regex matches, the whole input otherwise. -/
def githubNamePortion (input : Str) : Str :=
  match githubRefMatch input with
  | some (name, _) => name
  | none => input

-- ─── C9 ──────────────────────────────────────────────────────────────────────

/-- C9: only github names are lowercased by the parser: the name of a
parsed github spec is the lowercasing of the name portion of the input,
and every parseSpecSync result tagged github comes from parseGithubSpec
on the trimmed input (with the explicit prefix stripped when present);
npm names are literal prefixes of the input and pypi and crates names
are whitespace-trims of literal prefixes of the input, so those three
registries preserve the original casing. -/
theorem C9_parser_case_normalization :
    (∀ (input : Str) (s : PackageSpec), parseGithubSpec input = .ok s →
        s.name = lowerStr (githubNamePortion input))
    ∧ (∀ (input : Str) (s : PackageSpec), parseSpecSync input = .ok s →
        s.registry = .github →
        ∃ g, (trimStr input = str "github:" ++ g ∨ g = trimStr input)
          ∧ parseGithubSpec g = .ok s)
    ∧ (∀ (input : Str) (s : PackageSpec), parseNpmSpec input = .ok s →
        ∃ rest, input = s.name ++ rest)
    ∧ (∀ (input : Str) (s : PackageSpec), parsePypiSpec input = .ok s →
        ∃ raw rest, input = raw ++ rest ∧ s.name = trimStr raw)
    ∧ (∀ (input : Str) (s : PackageSpec), parseCratesSpec input = .ok s →
        ∃ raw rest, input = raw ++ rest ∧ s.name = trimStr raw) := by
  refine ⟨?_, ?_, ?_, ?_, ?_⟩
  · intro input s h
    unfold parseGithubSpec at h
    unfold githubNamePortion
    cases hm : githubRefMatch input with
    | some pr =>
      obtain ⟨n, ref⟩ := pr
      rw [hm] at h
      dsimp only at h
      split at h
      · cases h
      · cases h
        rfl
    | none =>
      rw [hm] at h
      dsimp only at h
      split at h
      · cases h
      · cases h
        rfl
  · intro input s h hgh
    unfold parseSpecSync at h
    dsimp only at h
    split at h
    · have hreg := parseNpmSpec_registry _ _ h
      rw [hgh] at hreg
      cases hreg
    · split at h
      · have hreg := parsePypiSpec_registry _ _ h
        rw [hgh] at hreg
        cases hreg
      · split at h
        · have hreg := parseCratesSpec_registry _ _ h
          rw [hgh] at hreg
          cases hreg
        · split at h
          · rename_i hc
            refine ⟨(trimStr input).drop 7, Or.inl ?_, h⟩
            have hd := startsWith_decomp (str "github:") (trimStr input) hc
            have h7 : (str "github:").length = 7 := rfl
            rw [h7] at hd
            exact hd
          · split at h
            · exact ⟨trimStr input, Or.inr rfl, h⟩
            · have hreg := parseNpmSpec_registry _ _ h
              rw [hgh] at hreg
              cases hreg
  · intro input s h
    unfold parseNpmSpec at h
    split at h
    · rename_i hat
      cases hm : npmScopedMatch input.tail with
      | none =>
        rw [hm] at h
        cases h
      | some pr =>
        obtain ⟨nm, ver⟩ := pr
        rw [hm] at h
        dsimp only at h
        cases h
        obtain ⟨rest, hrest⟩ := npmScopedMatch_decomp input.tail nm ver hm
        refine ⟨rest, ?_⟩
        rw [head_eq_cons input '@' hat]
        exact hrest
    · dsimp only at h
      split at h
      · cases h
      · split at h
        · cases h
        · cases h
          exact splitAtChar_head_decomp '@' input
  · intro input s h
    unfold parsePypiSpec at h
    cases hm : pypiMatch input with
    | none =>
      rw [hm] at h
      cases h
    | some pr =>
      obtain ⟨nm, ver⟩ := pr
      rw [hm] at h
      dsimp only at h
      split at h
      · cases h
      · cases h
        have hname := pypiMatch_name input nm ver hm
        subst hname
        exact ⟨_, _, (takeWhile_append_drop (fun c => !(c = '@' || c = '=')) input).symm, rfl⟩
  · intro input s h
    unfold parseCratesSpec at h
    dsimp only at h
    split at h
    · cases h
    · split at h
      · cases h
      · cases h
        obtain ⟨rest, hrest⟩ := splitAtChar_head_decomp '@' input
        exact ⟨(splitAtChar '@' input).headD [], rest, hrest, rfl⟩

/-- Witness for C9 at concrete inputs for each registry: the github
name is the lowercased name portion while npm, pypi and crates keep the
original casing (modulo whitespace trim). -/
theorem C9_parser_case_normalization_witness :
    (str "foo/bar" = lowerStr (githubNamePortion (str "Foo/Bar@REF")))
    ∧ (∃ g, (trimStr (str "github:Foo/Bar") = str "github:" ++ g
          ∨ g = trimStr (str "github:Foo/Bar"))
        ∧ parseGithubSpec g
          = .ok { registry := .github, name := str "foo/bar", version := none })
    ∧ (∃ rest, str "Lodash@1.0" = str "Lodash" ++ rest)
    ∧ (∃ raw rest, str " Requests ==2.0" = raw ++ rest ∧ str "Requests" = trimStr raw)
    ∧ (∃ raw rest, str "Serde@1.0" = raw ++ rest ∧ str "Serde" = trimStr raw) := by
  refine ⟨?_, ?_, ?_, ?_, ?_⟩
  · exact C9_parser_case_normalization.1 (str "Foo/Bar@REF")
      { registry := .github, name := str "foo/bar", version := some (str "REF") } rfl
  · exact C9_parser_case_normalization.2.1 (str "github:Foo/Bar")
      { registry := .github, name := str "foo/bar", version := none } rfl rfl
  · exact C9_parser_case_normalization.2.2.1 (str "Lodash@1.0")
      { registry := .npm, name := str "Lodash", version := some (str "1.0") } rfl
  · exact C9_parser_case_normalization.2.2.2.1 (str " Requests ==2.0")
      { registry := .pypi, name := str "Requests", version := some (str "2.0") } rfl
  · exact C9_parser_case_normalization.2.2.2.2 (str "Serde@1.0")
      { registry := .crates, name := str "Serde", version := some (str "1.0") } rfl

-- ─── Registry resolution engine (src/services/registry.ts) ───────────────────

inductive GitHost
  | github
  | gitlab
  | bitbucket
  | codeberg
  | sourcehut
deriving DecidableEq, Repr

structure RepoInfo where
  host : GitHost
  owner : Str
  repo : Str
deriving DecidableEq, Repr

/-- The repo capture class of the host patterns: not slash, dot,
whitespace or hash. -/
def repoCaptureChar (c : Char) : Bool := !(c = '/' || c = '.' || isWS c || c = '#')

/-- The two captures shared by every host pattern: one or more
non-slash chars, a slash, then one or more repo-class chars. -/
def captureOwnerRepo (l : Str) : Option (Str × Str) :=
  let owner := l.takeWhile (fun c => !(c = '/'))
  if owner.isEmpty then none
  else
    match l.drop owner.length with
    | '/' :: rest =>
      let repo := rest.takeWhile repoCaptureChar
      if repo.isEmpty then none else some (owner, repo)
    | _ => none

def dropPfx (p l : Str) : Option Str :=
  if startsWithStr p l then some (l.drop p.length) else none

/-- Match one host pattern at one position: the literal, optionally a
slash-or-colon separator, optionally a tilde, then the captures. -/
def matchHostAt (lit : Str) (sep : Bool) (tilde : Bool) (l : Str) : Option (Str × Str) :=
  match dropPfx lit l with
  | none => none
  | some r1 =>
    let r2? : Option Str :=
      if sep then
        match r1 with
        | c :: t => if c = '/' || c = ':' then some t else none
        | [] => none
      else some r1
    match r2? with
    | none => none
    | some r2 =>
      let r3? : Option Str :=
        if tilde then
          match r2 with
          | '~' :: t => some t
          | _ => none
        else some r2
      match r3? with
      | none => none
      | some r3 => captureOwnerRepo r3

/-- Leftmost match of an unanchored pattern: try every start position. -/
def scanForMatch (f : Str → Option (Str × Str)) : Str → Option (Str × Str)
  | [] => f []
  | l@(_ :: rest) =>
    match f l with
    | some r => some r
    | none => scanForMatch f rest

def endsWithStr (suf l : Str) : Bool := startsWithStr suf.reverse l.reverse

/-- The replace of a trailing .git on the repo capture (a no-op in fact,
since the capture class excludes dots, but kept from the source). -/
def stripDotGit (l : Str) : Str :=
  if endsWithStr (str ".git") l then l.take (l.length - 4) else l

structure HostPattern where
  host : GitHost
  lit : Str
  sep : Bool
  tilde : Bool
  anchored : Bool

def hostPatterns : List HostPattern :=
  [ { host := .github, lit := str "github.com", sep := true, tilde := false, anchored := false },
    { host := .github, lit := str "github:", sep := false, tilde := false, anchored := true },
    { host := .gitlab, lit := str "gitlab.com", sep := true, tilde := false, anchored := false },
    { host := .gitlab, lit := str "gitlab:", sep := false, tilde := false, anchored := true },
    { host := .bitbucket, lit := str "bitbucket.org", sep := true, tilde := false, anchored := false },
    { host := .bitbucket, lit := str "bitbucket:", sep := false, tilde := false, anchored := true },
    { host := .codeberg, lit := str "codeberg.org", sep := true, tilde := false, anchored := false },
    { host := .sourcehut, lit := str "sr.ht", sep := true, tilde := true, anchored := false },
    { host := .sourcehut, lit := str "git.sr.ht", sep := true, tilde := true, anchored := false } ]

def tryPattern (p : HostPattern) (url : Str) : Option RepoInfo :=
  let mres := if p.anchored then matchHostAt p.lit p.sep p.tilde url
              else scanForMatch (matchHostAt p.lit p.sep p.tilde) url
  match mres with
  | some (owner, repo) => some { host := p.host, owner := owner, repo := stripDotGit repo }
  | none => none

def extractRepoInfoUrl (url : Str) : Option RepoInfo :=
  hostPatterns.findSome? (fun p => tryPattern p url)

/-- The repository field of package metadata: either a bare string or
an object with an optional url. -/
inductive RepositoryField
  | s (url : Str)
  | obj (url : Option Str)
deriving DecidableEq, Repr

def extractRepoInfo : Option RepositoryField → Option RepoInfo
  | none => none
  | some (.s u) => if u.isEmpty then none else extractRepoInfoUrl u
  | some (.obj u?) =>
    match u? with
    | none => none
    | some u => if u.isEmpty then none else extractRepoInfoUrl u

def getCloneUrl (info : RepoInfo) : Str :=
  match info.host with
  | .github => str "https://github.com/" ++ info.owner ++ '/' :: info.repo ++ str ".git"
  | .gitlab => str "https://gitlab.com/" ++ info.owner ++ '/' :: info.repo ++ str ".git"
  | .bitbucket => str "https://bitbucket.org/" ++ info.owner ++ '/' :: info.repo ++ str ".git"
  | .codeberg => str "https://codeberg.org/" ++ info.owner ++ '/' :: info.repo ++ str ".git"
  | .sourcehut => str "https://git.sr.ht/~" ++ info.owner ++ '/' :: info.repo

/-- Clone options as built by cloneFromRepoInfo: depth and ref are only
set when truthy. -/
structure CloneOptions where
  depth : Option Nat
  ref : Option Str
deriving DecidableEq, Repr

def mkCloneOptions (depth : Option Nat) (ref : Option Str) : CloneOptions :=
  { depth := match depth with
      | some d => if d ≠ 0 then some d else none
      | none => none,
    ref := match ref with
      | some r => if !r.isEmpty then some r else none
      | none => none }

/-- The candidate checkout tag: the resolved version prefixed with v
unless it already starts with v. -/
def vTag (rv : Str) : Str := if startsWithStr (str "v") rv then rv else 'v' :: rv

-- ─── Archive download and extraction ─────────────────────────────────────────

inductive FetchEvent
  | cloneAttempt (url : Str) (opts : CloneOptions)
  | wroteTemp (path : Str)
  | ranTar (args : List Str)
  | unlinkAttempt (path : Str) (ok : Bool)
deriving DecidableEq, Repr

inductive FetchErr
  | network (url : Str)
  | registryErr (reg : Registry) (operation : String)
deriving DecidableEq, Repr

/-- Environment of one downloadAndExtractTarball invocation: outcomes
of the download, the buffer read, the temp write, the extractor exit
(none models a rejected exit promise) and the unlink. -/
structure TarballEnv where
  netThrew : Bool
  responseOk : Bool
  readOk : Bool
  writeOk : Bool
  exitCode : Option Int
  unlinkOk : Bool
  nowMs : Str
deriving DecidableEq, Repr

def tarTempFile (env : TarballEnv) : Str := str "/tmp/repo-" ++ env.nowMs ++ str ".tgz"

def tarArgs (tempFile destPath : Str) : List Str :=
  [str "tar", str "-xzf", tempFile, str "-C", destPath, str "--strip-components=1"]

def downloadAndExtractTarball (url destPath : Str) (reg : Registry) (env : TarballEnv) :
    Except FetchErr Unit × List FetchEvent :=
  if env.netThrew then (.error (.network url), [])
  else if !env.responseOk then (.error (.registryErr reg "download-tarball"), [])
  else if !env.readOk then (.error (.registryErr reg "read-tarball"), [])
  else if !env.writeOk then (.error (.registryErr reg "write-temp"), [])
  else
    let tempFile := tarTempFile env
    match env.exitCode with
    | none =>
      (.error (.registryErr reg "extract-tarball"),
       [.wroteTemp tempFile, .ranTar (tarArgs tempFile destPath)])
    | some code =>
      let evs := [FetchEvent.wroteTemp tempFile, .ranTar (tarArgs tempFile destPath),
        .unlinkAttempt tempFile env.unlinkOk]
      if code ≠ 0 then (.error (.registryErr reg "extract-tarball"), evs)
      else (.ok (), evs)

-- ─── Registry fetch pipelines ────────────────────────────────────────────────

/-- Outcomes of the registry metadata API call preceding resolution. -/
structure ApiEnv where
  netThrew : Bool
  responseOk : Bool
  parseOk : Bool
deriving DecidableEq, Repr

def lookupStr {α : Type} (m : List (Str × α)) (k : Str) : Option α :=
  (m.find? (fun e => decide (e.1 = k))).map (fun e => e.2)

structure NpmDist where
  tarball : Option Str
deriving DecidableEq, Repr

structure NpmData where
  versions : List (Str × NpmDist)
  distTags : List (Str × Str)
  repository : Option RepositoryField

/-- Version resolution of fetchNpm: latest goes through the dist tags,
a known version is taken as is, anything else is tried as a dist tag. -/
def npmResolveVersion (data : NpmData) (requested : Str) : Option Str :=
  if requested = str "latest" then lookupStr data.distTags (str "latest")
  else if (lookupStr data.versions requested).isSome then some requested
  else lookupStr data.distTags requested

def fetchNpm (spec : PackageSpec) (destPath : Str) (depth : Option Nat)
    (api : ApiEnv) (data : NpmData) (cloneOk : Str → CloneOptions → Bool)
    (tenv : TarballEnv) : Except FetchErr Unit × List FetchEvent :=
  let url := str "https://registry.npmjs.org/" ++ spec.name
  if api.netThrew then (.error (.network url), [])
  else if !api.responseOk then (.error (.registryErr .npm "fetch-metadata"), [])
  else if !api.parseOk then (.error (.registryErr .npm "parse-metadata"), [])
  else
    let version := spec.version.getD (str "latest")
    match npmResolveVersion data version with
    | none => (.error (.registryErr .npm "resolve-version"), [])
    | some rv =>
      if rv.isEmpty || (lookupStr data.versions rv).isNone then
        (.error (.registryErr .npm "resolve-version"), [])
      else
        let tarball? : Option Str := (lookupStr data.versions rv).bind (fun d => d.tarball)
        match extractRepoInfo data.repository with
        | some info =>
          let gitRef := vTag rv
          let cloneUrl := getCloneUrl info
          let opts := mkCloneOptions depth (some gitRef)
          if cloneOk cloneUrl opts then (.ok (), [.cloneAttempt cloneUrl opts])
          else
            match tarball? with
            | none => (.error (.registryErr .npm "get-tarball-url"), [.cloneAttempt cloneUrl opts])
            | some turl =>
              if turl.isEmpty then
                (.error (.registryErr .npm "get-tarball-url"), [.cloneAttempt cloneUrl opts])
              else
                let r := downloadAndExtractTarball turl destPath .npm tenv
                (r.1, .cloneAttempt cloneUrl opts :: r.2)
        | none =>
          match tarball? with
          | none => (.error (.registryErr .npm "get-tarball-url"), [])
          | some turl =>
            if turl.isEmpty then (.error (.registryErr .npm "get-tarball-url"), [])
            else downloadAndExtractTarball turl destPath .npm tenv

structure PypiUrlEntry where
  packagetype : Str
  url : Str
deriving DecidableEq, Repr

structure PypiInfo where
  projectUrls : Option (List (Str × Str))
  homePage : Option Str
  version : Str

structure PypiData where
  urls : List PypiUrlEntry
  info : PypiInfo

/-- The ordered candidate urls of extractRepoInfoFromPypi. -/
def extractRepoInfoFromPypi (info : PypiInfo) : Option RepoInfo :=
  let candidates : List (Option Str) :=
    [ info.projectUrls.bind (fun m => lookupStr m (str "Source")),
      info.projectUrls.bind (fun m => lookupStr m (str "Source Code")),
      info.projectUrls.bind (fun m => lookupStr m (str "GitHub")),
      info.projectUrls.bind (fun m => lookupStr m (str "GitLab")),
      info.projectUrls.bind (fun m => lookupStr m (str "Repository")),
      info.projectUrls.bind (fun m => lookupStr m (str "Code")),
      info.homePage ]
  candidates.findSome? (fun u? =>
    match u? with
    | some u => if u.isEmpty then none else extractRepoInfo (some (.s u))
    | none => none)

def fetchPypi (spec : PackageSpec) (destPath : Str) (depth : Option Nat)
    (api : ApiEnv) (data : PypiData) (cloneOk : Str → CloneOptions → Bool)
    (tenv : TarballEnv) : Except FetchErr Unit × List FetchEvent :=
  let url := match spec.version with
    | some v => str "https://pypi.org/pypi/" ++ spec.name ++ '/' :: v ++ str "/json"
    | none => str "https://pypi.org/pypi/" ++ spec.name ++ str "/json"
  if api.netThrew then (.error (.network url), [])
  else if !api.responseOk then (.error (.registryErr .pypi "fetch-metadata"), [])
  else if !api.parseOk then (.error (.registryErr .pypi "parse-metadata"), [])
  else
    let tarball? : Option Str :=
      ((data.urls.find? (fun u => decide (u.packagetype = str "sdist"))).map
          (fun u => u.url)).or
        ((data.urls.find? (fun u => decide (u.packagetype = str "bdist_wheel"))).map
          (fun u => u.url))
    match extractRepoInfoFromPypi data.info with
    | some info =>
      let rv := data.info.version
      let gitRef := vTag rv
      let cloneUrl := getCloneUrl info
      let opts := mkCloneOptions depth (some gitRef)
      if cloneOk cloneUrl opts then (.ok (), [.cloneAttempt cloneUrl opts])
      else
        match tarball? with
        | none => (.error (.registryErr .pypi "get-download-url"), [.cloneAttempt cloneUrl opts])
        | some turl =>
          if turl.isEmpty then
            (.error (.registryErr .pypi "get-download-url"), [.cloneAttempt cloneUrl opts])
          else
            let r := downloadAndExtractTarball turl destPath .pypi tenv
            (r.1, .cloneAttempt cloneUrl opts :: r.2)
    | none =>
      match tarball? with
      | none => (.error (.registryErr .pypi "get-download-url"), [])
      | some turl =>
        if turl.isEmpty then (.error (.registryErr .pypi "get-download-url"), [])
        else downloadAndExtractTarball turl destPath .pypi tenv

structure CrateVersion where
  num : Str
  dlPath : Str
deriving DecidableEq, Repr

structure CratesData where
  repository : Option Str
  homepage : Option Str
  versions : List CrateVersion

def fetchCrates (spec : PackageSpec) (destPath : Str) (depth : Option Nat)
    (api : ApiEnv) (data : CratesData) (cloneOk : Str → CloneOptions → Bool)
    (tenv : TarballEnv) : Except FetchErr Unit × List FetchEvent :=
  let url := str "https://crates.io/api/v1/crates/" ++ spec.name
  if api.netThrew then (.error (.network url), [])
  else if !api.responseOk then (.error (.registryErr .crates "fetch-metadata"), [])
  else if !api.parseOk then (.error (.registryErr .crates "parse-metadata"), [])
  else
    let versionInfo? := match spec.version with
      | some v => data.versions.find? (fun vi : CrateVersion => decide (vi.num = v))
      | none => data.versions.head?
    match versionInfo? with
    | none => (.error (.registryErr .crates "resolve-version"), [])
    | some vi =>
      let repoInfo? := (extractRepoInfo (data.repository.map .s)).or
        (extractRepoInfo (data.homepage.map .s))
      let turl := str "https://crates.io" ++ vi.dlPath
      match repoInfo? with
      | some info =>
        let gitRef := vTag vi.num
        let cloneUrl := getCloneUrl info
        let opts := mkCloneOptions depth (some gitRef)
        if cloneOk cloneUrl opts then (.ok (), [.cloneAttempt cloneUrl opts])
        else
          let r := downloadAndExtractTarball turl destPath .crates tenv
          (r.1, .cloneAttempt cloneUrl opts :: r.2)
      | none => downloadAndExtractTarball turl destPath .crates tenv

-- ─── C5 ──────────────────────────────────────────────────────────────────────

/-- C5: for each package registry, when a repository reference is found
in the metadata the candidate tag is the resolved version prefixed with
v unless it already starts with v and a checkout is attempted at that
tag; on checkout success nothing else happens, and when no reference is
found or the checkout fails the engine downloads the declared archive
url for that version and extracts it into destPath with tar run with
the strip-components flag (one top-level directory stripped). -/
theorem C5_source_first_resolution :
    (∀ v : Str, (startsWithStr (str "v") v = true → vTag v = v)
      ∧ (startsWithStr (str "v") v = false → vTag v = 'v' :: v))
    ∧ (∀ (spec : PackageSpec) (destPath : Str) (depth : Option Nat) (api : ApiEnv)
         (data : NpmData) (cloneOk : Str → CloneOptions → Bool) (tenv : TarballEnv)
         (rv : Str) (info : RepoInfo),
        api.netThrew = false → api.responseOk = true → api.parseOk = true →
        npmResolveVersion data (spec.version.getD (str "latest")) = some rv →
        rv.isEmpty = false → (lookupStr data.versions rv).isNone = false →
        extractRepoInfo data.repository = some info →
        (cloneOk (getCloneUrl info) (mkCloneOptions depth (some (vTag rv))) = true →
          fetchNpm spec destPath depth api data cloneOk tenv
            = (.ok (), [.cloneAttempt (getCloneUrl info)
                (mkCloneOptions depth (some (vTag rv)))]))
        ∧ (∀ turl : Str,
            cloneOk (getCloneUrl info) (mkCloneOptions depth (some (vTag rv))) = false →
            (lookupStr data.versions rv).bind (fun d => d.tarball) = some turl →
            turl.isEmpty = false →
            fetchNpm spec destPath depth api data cloneOk tenv
              = ((downloadAndExtractTarball turl destPath .npm tenv).1,
                 .cloneAttempt (getCloneUrl info) (mkCloneOptions depth (some (vTag rv)))
                   :: (downloadAndExtractTarball turl destPath .npm tenv).2)))
    ∧ (∀ (spec : PackageSpec) (destPath : Str) (depth : Option Nat) (api : ApiEnv)
         (data : NpmData) (cloneOk : Str → CloneOptions → Bool) (tenv : TarballEnv)
         (rv turl : Str),
        api.netThrew = false → api.responseOk = true → api.parseOk = true →
        npmResolveVersion data (spec.version.getD (str "latest")) = some rv →
        rv.isEmpty = false → (lookupStr data.versions rv).isNone = false →
        extractRepoInfo data.repository = none →
        (lookupStr data.versions rv).bind (fun d => d.tarball) = some turl →
        turl.isEmpty = false →
        fetchNpm spec destPath depth api data cloneOk tenv
          = downloadAndExtractTarball turl destPath .npm tenv)
    ∧ (∀ (spec : PackageSpec) (destPath : Str) (depth : Option Nat) (api : ApiEnv)
         (data : PypiData) (cloneOk : Str → CloneOptions → Bool) (tenv : TarballEnv)
         (info : RepoInfo),
        api.netThrew = false → api.responseOk = true → api.parseOk = true →
        extractRepoInfoFromPypi data.info = some info →
        (cloneOk (getCloneUrl info) (mkCloneOptions depth (some (vTag data.info.version)))
            = true →
          fetchPypi spec destPath depth api data cloneOk tenv
            = (.ok (), [.cloneAttempt (getCloneUrl info)
                (mkCloneOptions depth (some (vTag data.info.version)))]))
        ∧ (∀ turl : Str,
            cloneOk (getCloneUrl info) (mkCloneOptions depth (some (vTag data.info.version)))
              = false →
            (((data.urls.find? (fun u => decide (u.packagetype = str "sdist"))).map
                (fun u => u.url)).or
              ((data.urls.find? (fun u => decide (u.packagetype = str "bdist_wheel"))).map
                (fun u => u.url))) = some turl →
            turl.isEmpty = false →
            fetchPypi spec destPath depth api data cloneOk tenv
              = ((downloadAndExtractTarball turl destPath .pypi tenv).1,
                 .cloneAttempt (getCloneUrl info)
                     (mkCloneOptions depth (some (vTag data.info.version)))
                   :: (downloadAndExtractTarball turl destPath .pypi tenv).2)))
    ∧ (∀ (spec : PackageSpec) (destPath : Str) (depth : Option Nat) (api : ApiEnv)
         (data : PypiData) (cloneOk : Str → CloneOptions → Bool) (tenv : TarballEnv)
         (turl : Str),
        api.netThrew = false → api.responseOk = true → api.parseOk = true →
        extractRepoInfoFromPypi data.info = none →
        (((data.urls.find? (fun u => decide (u.packagetype = str "sdist"))).map
            (fun u => u.url)).or
          ((data.urls.find? (fun u => decide (u.packagetype = str "bdist_wheel"))).map
            (fun u => u.url))) = some turl →
        turl.isEmpty = false →
        fetchPypi spec destPath depth api data cloneOk tenv
          = downloadAndExtractTarball turl destPath .pypi tenv)
    ∧ (∀ (spec : PackageSpec) (destPath : Str) (depth : Option Nat) (api : ApiEnv)
         (data : CratesData) (cloneOk : Str → CloneOptions → Bool) (tenv : TarballEnv)
         (vi : CrateVersion) (info : RepoInfo),
        api.netThrew = false → api.responseOk = true → api.parseOk = true →
        (match spec.version with
          | some v => data.versions.find? (fun vi2 : CrateVersion => decide (vi2.num = v))
          | none => data.versions.head?) = some vi →
        ((extractRepoInfo (data.repository.map .s)).or
            (extractRepoInfo (data.homepage.map .s))) = some info →
        (cloneOk (getCloneUrl info) (mkCloneOptions depth (some (vTag vi.num))) = true →
          fetchCrates spec destPath depth api data cloneOk tenv
            = (.ok (), [.cloneAttempt (getCloneUrl info)
                (mkCloneOptions depth (some (vTag vi.num)))]))
        ∧ (cloneOk (getCloneUrl info) (mkCloneOptions depth (some (vTag vi.num))) = false →
            fetchCrates spec destPath depth api data cloneOk tenv
              = ((downloadAndExtractTarball (str "https://crates.io" ++ vi.dlPath)
                    destPath .crates tenv).1,
                 .cloneAttempt (getCloneUrl info) (mkCloneOptions depth (some (vTag vi.num)))
                   :: (downloadAndExtractTarball (str "https://crates.io" ++ vi.dlPath)
                    destPath .crates tenv).2)))
    ∧ (∀ (spec : PackageSpec) (destPath : Str) (depth : Option Nat) (api : ApiEnv)
         (data : CratesData) (cloneOk : Str → CloneOptions → Bool) (tenv : TarballEnv)
         (vi : CrateVersion),
        api.netThrew = false → api.responseOk = true → api.parseOk = true →
        (match spec.version with
          | some v => data.versions.find? (fun vi2 : CrateVersion => decide (vi2.num = v))
          | none => data.versions.head?) = some vi →
        ((extractRepoInfo (data.repository.map .s)).or
            (extractRepoInfo (data.homepage.map .s))) = none →
        fetchCrates spec destPath depth api data cloneOk tenv
          = downloadAndExtractTarball (str "https://crates.io" ++ vi.dlPath)
              destPath .crates tenv)
    ∧ (∀ (url destPath : Str) (reg : Registry) (env : TarballEnv),
        env.netThrew = false → env.responseOk = true → env.readOk = true →
        env.writeOk = true →
        FetchEvent.ranTar (tarArgs (tarTempFile env) destPath)
          ∈ (downloadAndExtractTarball url destPath reg env).2
        ∧ str "--strip-components=1" ∈ tarArgs (tarTempFile env) destPath
        ∧ str "-C" ∈ tarArgs (tarTempFile env) destPath) := by
  refine ⟨?_, ?_, ?_, ?_, ?_, ?_, ?_, ?_⟩
  · intro v
    constructor
    · intro h
      unfold vTag
      rw [h, if_pos rfl]
    · intro h
      unfold vTag
      rw [h]
      simp
  · intro spec destPath depth api data cloneOk tenv rv info
      hnet hresp hparse hres hempty hlook hrepo
    have hstep : fetchNpm spec destPath depth api data cloneOk tenv
        = (if cloneOk (getCloneUrl info) (mkCloneOptions depth (some (vTag rv))) then
            ((.ok (), [.cloneAttempt (getCloneUrl info)
              (mkCloneOptions depth (some (vTag rv)))]) :
                Except FetchErr Unit × List FetchEvent)
          else
            match (lookupStr data.versions rv).bind (fun d => d.tarball) with
            | none => (.error (.registryErr .npm "get-tarball-url"),
                [.cloneAttempt (getCloneUrl info) (mkCloneOptions depth (some (vTag rv)))])
            | some turl =>
              if turl.isEmpty then
                (.error (.registryErr .npm "get-tarball-url"),
                 [.cloneAttempt (getCloneUrl info) (mkCloneOptions depth (some (vTag rv)))])
              else
                ((downloadAndExtractTarball turl destPath .npm tenv).1,
                 .cloneAttempt (getCloneUrl info) (mkCloneOptions depth (some (vTag rv)))
                   :: (downloadAndExtractTarball turl destPath .npm tenv).2)) := by
      unfold fetchNpm
      rw [hnet, hresp, hparse]
      dsimp only
      simp only [Bool.false_eq_true, Bool.not_true, if_false]
      rw [hres]
      dsimp only
      rw [hempty, hlook]
      simp only [Bool.or_self, Bool.false_eq_true, if_false]
      rw [hrepo]
    constructor
    · intro hcl
      rw [hstep, if_pos hcl]
    · intro turl hcl htar htne
      rw [hstep, if_neg (by rw [hcl]; exact Bool.false_ne_true), htar]
      dsimp only
      rw [htne]
      simp only [Bool.false_eq_true, if_false]
  · intro spec destPath depth api data cloneOk tenv rv turl
      hnet hresp hparse hres hempty hlook hrepo htar htne
    unfold fetchNpm
    rw [hnet, hresp, hparse]
    dsimp only
    simp only [Bool.false_eq_true, Bool.not_true, if_false]
    rw [hres]
    dsimp only
    rw [hempty, hlook]
    simp only [Bool.or_self, Bool.false_eq_true, if_false]
    rw [hrepo, htar]
    dsimp only
    rw [htne]
    simp only [Bool.false_eq_true, if_false]
  · intro spec destPath depth api data cloneOk tenv info hnet hresp hparse hrepo
    have hstep : fetchPypi spec destPath depth api data cloneOk tenv
        = (if cloneOk (getCloneUrl info)
              (mkCloneOptions depth (some (vTag data.info.version))) then
            ((.ok (), [.cloneAttempt (getCloneUrl info)
              (mkCloneOptions depth (some (vTag data.info.version)))]) :
                Except FetchErr Unit × List FetchEvent)
          else
            match (((data.urls.find? (fun u => decide (u.packagetype = str "sdist"))).map
                (fun u => u.url)).or
              ((data.urls.find? (fun u => decide (u.packagetype = str "bdist_wheel"))).map
                (fun u => u.url))) with
            | none => (.error (.registryErr .pypi "get-download-url"),
                [.cloneAttempt (getCloneUrl info)
                  (mkCloneOptions depth (some (vTag data.info.version)))])
            | some turl =>
              if turl.isEmpty then
                (.error (.registryErr .pypi "get-download-url"),
                 [.cloneAttempt (getCloneUrl info)
                   (mkCloneOptions depth (some (vTag data.info.version)))])
              else
                ((downloadAndExtractTarball turl destPath .pypi tenv).1,
                 .cloneAttempt (getCloneUrl info)
                     (mkCloneOptions depth (some (vTag data.info.version)))
                   :: (downloadAndExtractTarball turl destPath .pypi tenv).2)) := by
      unfold fetchPypi
      rw [hnet, hresp, hparse]
      dsimp only
      simp only [Bool.false_eq_true, Bool.not_true, if_false]
      rw [hrepo]
    constructor
    · intro hcl
      rw [hstep, if_pos hcl]
    · intro turl hcl htar htne
      rw [hstep, if_neg (by rw [hcl]; exact Bool.false_ne_true), htar]
      dsimp only
      rw [htne]
      simp only [Bool.false_eq_true, if_false]
  · intro spec destPath depth api data cloneOk tenv turl hnet hresp hparse hrepo htar htne
    unfold fetchPypi
    rw [hnet, hresp, hparse]
    dsimp only
    simp only [Bool.false_eq_true, Bool.not_true, if_false]
    rw [hrepo, htar]
    dsimp only
    rw [htne]
    simp only [Bool.false_eq_true, if_false]
  · intro spec destPath depth api data cloneOk tenv vi info hnet hresp hparse hvi hrepo
    have hstep : fetchCrates spec destPath depth api data cloneOk tenv
        = (if cloneOk (getCloneUrl info) (mkCloneOptions depth (some (vTag vi.num))) then
            ((.ok (), [.cloneAttempt (getCloneUrl info)
              (mkCloneOptions depth (some (vTag vi.num)))]) :
                Except FetchErr Unit × List FetchEvent)
          else
            ((downloadAndExtractTarball (str "https://crates.io" ++ vi.dlPath)
                destPath .crates tenv).1,
             .cloneAttempt (getCloneUrl info) (mkCloneOptions depth (some (vTag vi.num)))
               :: (downloadAndExtractTarball (str "https://crates.io" ++ vi.dlPath)
                destPath .crates tenv).2)) := by
      unfold fetchCrates
      rw [hnet, hresp, hparse]
      dsimp only
      simp only [Bool.false_eq_true, Bool.not_true, if_false]
      rw [hvi]
      dsimp only
      rw [hrepo]
    constructor
    · intro hcl
      rw [hstep, if_pos hcl]
    · intro hcl
      rw [hstep, if_neg (by rw [hcl]; exact Bool.false_ne_true)]
  · intro spec destPath depth api data cloneOk tenv vi hnet hresp hparse hvi hrepo
    unfold fetchCrates
    rw [hnet, hresp, hparse]
    dsimp only
    simp only [Bool.false_eq_true, Bool.not_true, if_false]
    rw [hvi]
    dsimp only
    rw [hrepo]
  · intro url destPath reg env hnet hresp hread hwrite
    unfold downloadAndExtractTarball
    rw [hnet, hresp, hread, hwrite]
    simp only [Bool.false_eq_true, Bool.not_true, if_false]
    refine ⟨?_, ?_, ?_⟩
    · cases hec : env.exitCode with
      | none => simp
      | some code =>
        dsimp only
        by_cases hc : code ≠ 0
        · rw [if_pos hc]
          simp
        · rw [if_neg hc]
          simp
    · unfold tarArgs
      simp
    · unfold tarArgs
      simp

/-- Witness for C5: a concrete npm package whose metadata declares a
github repository; with a succeeding clone oracle the fetch clones at
tag v1.0.0 and performs no archive work. -/
theorem C5_source_first_resolution_witness :
    fetchNpm { registry := .npm, name := str "swr", version := none } (str "/dest") (some 100)
      { netThrew := false, responseOk := true, parseOk := true }
      { versions := [(str "1.0.0", { tarball := some (str "https://registry.npmjs.org/swr/-/swr-1.0.0.tgz") })],
        distTags := [(str "latest", str "1.0.0")],
        repository := some (.s (str "https://github.com/vercel/swr.git")) }
      (fun _ _ => true)
      { netThrew := false, responseOk := true, readOk := true, writeOk := true,
        exitCode := some 0, unlinkOk := true, nowMs := str "1" }
    = (.ok (), [.cloneAttempt (str "https://github.com/vercel/swr.git")
        { depth := some 100, ref := some (str "v1.0.0") }]) := by
  have h := (C5_source_first_resolution.2.1
    { registry := .npm, name := str "swr", version := none } (str "/dest") (some 100)
    { netThrew := false, responseOk := true, parseOk := true }
    { versions := [(str "1.0.0", { tarball := some (str "https://registry.npmjs.org/swr/-/swr-1.0.0.tgz") })],
      distTags := [(str "latest", str "1.0.0")],
      repository := some (.s (str "https://github.com/vercel/swr.git")) }
    (fun _ _ => true)
    { netThrew := false, responseOk := true, readOk := true, writeOk := true,
      exitCode := some 0, unlinkOk := true, nowMs := str "1" }
    (str "1.0.0") { host := .github, owner := str "vercel", repo := str "swr" }
    rfl rfl rfl rfl rfl rfl rfl).1 rfl
  exact h

-- ─── C8 ──────────────────────────────────────────────────────────────────────

def c8envBad : TarballEnv :=
  { netThrew := false, responseOk := false, readOk := true, writeOk := true,
    exitCode := some 0, unlinkOk := true, nowMs := str "99" }

/-- C8 counterexample: an invocation of the archive-download fallback
whose download fails (non-2xx response) returns an error having created
no temporary archive file at all, so the claim that every invocation
creates exactly one temporary file and deletes it is false as stated. -/
theorem C8_temp_cleanup_counterexample :
    (downloadAndExtractTarball (str "https://x/y.tgz") (str "/dest") .npm c8envBad).2 = []
    ∧ (downloadAndExtractTarball (str "https://x/y.tgz") (str "/dest") .npm c8envBad).1
      = .error (.registryErr .npm "download-tarball") := by
  exact ⟨rfl, rfl⟩

/-- C8 amended: every invocation of the archive-download fallback that
reaches the temp-file write (the download, buffer read and temp write
succeed and the extractor yields an exit code) creates exactly one
temporary archive file and attempts its deletion before returning,
including when the extractor exits non-zero; the deletion failure flag
is recorded but swallowed, and the primary result never depends on
whether the deletion succeeded. -/
theorem C8_temp_cleanup (url destPath : Str) (reg : Registry) (env : TarballEnv)
    (hnet : env.netThrew = false) (hresp : env.responseOk = true)
    (hread : env.readOk = true) (hwrite : env.writeOk = true)
    (code : Int) (hec : env.exitCode = some code) :
    (downloadAndExtractTarball url destPath reg env).2
      = [.wroteTemp (tarTempFile env), .ranTar (tarArgs (tarTempFile env) destPath),
         .unlinkAttempt (tarTempFile env) env.unlinkOk]
    ∧ (downloadAndExtractTarball url destPath reg env).1
      = (if code ≠ 0 then .error (.registryErr reg "extract-tarball") else .ok ())
    ∧ (∀ b : Bool,
        (downloadAndExtractTarball url destPath reg { env with unlinkOk := b }).1
          = (downloadAndExtractTarball url destPath reg env).1) := by
  have hrun : ∀ b : Bool, downloadAndExtractTarball url destPath reg { env with unlinkOk := b }
      = (if code ≠ 0 then Except.error (.registryErr reg "extract-tarball") else Except.ok (),
         [FetchEvent.wroteTemp (tarTempFile env),
          .ranTar (tarArgs (tarTempFile env) destPath),
          .unlinkAttempt (tarTempFile env) b]) := by
    intro b
    unfold downloadAndExtractTarball
    show (if env.netThrew = true then _ else _) = _
    rw [hnet, hresp, hread, hwrite]
    simp only [Bool.false_eq_true, Bool.not_true, if_false]
    show (match env.exitCode with
      | none => _
      | some code => _) = _
    rw [hec]
    dsimp only [tarTempFile]
    by_cases hc : code ≠ 0
    · rw [if_pos hc, if_pos hc]
    · rw [if_neg hc, if_neg hc]
  have hsame : downloadAndExtractTarball url destPath reg env
      = downloadAndExtractTarball url destPath reg { env with unlinkOk := env.unlinkOk } := by
    cases env
    rfl
  refine ⟨?_, ?_, ?_⟩
  · rw [hsame, hrun env.unlinkOk]
  · rw [hsame, hrun env.unlinkOk]
  · intro b
    rw [hsame, hrun env.unlinkOk, hrun b]

/-- Witness for the amended C8: a failing extraction (exit code 2) with
a failing unlink still records exactly one temp-file creation followed
by one deletion attempt, and flipping the unlink outcome leaves the
primary result unchanged. -/
theorem C8_temp_cleanup_witness :
    (downloadAndExtractTarball (str "https://x/y.tgz") (str "/dest") .npm
      { netThrew := false, responseOk := true, readOk := true, writeOk := true,
        exitCode := some 2, unlinkOk := false, nowMs := str "7" }).2
      = [.wroteTemp (str "/tmp/repo-7.tgz"),
         .ranTar (tarArgs (str "/tmp/repo-7.tgz") (str "/dest")),
         .unlinkAttempt (str "/tmp/repo-7.tgz") false] := by
  have h := (C8_temp_cleanup (str "https://x/y.tgz") (str "/dest") .npm
    { netThrew := false, responseOk := true, readOk := true, writeOk := true,
      exitCode := some 2, unlinkOk := false, nowMs := str "7" }
    rfl rfl rfl rfl 2 rfl).1
  exact h

-- ─── Round-trip helper lemmas ────────────────────────────────────────────────

theorem takeWhile_all (p : Char → Bool) (l : Str) (h : l.all p = true) :
    l.takeWhile p = l := by
  induction l with
  | nil => rfl
  | cons c rest ih =>
    rw [List.all_cons, Bool.and_eq_true] at h
    rw [List.takeWhile_cons, if_pos h.1, ih h.2]

theorem takeWhile_append_delim (p : Char → Bool) (n : Str) (d : Char) (r : Str)
    (h : n.all p = true) (hd : p d = false) :
    (n ++ d :: r).takeWhile p = n := by
  induction n with
  | nil =>
    rw [List.nil_append, List.takeWhile_cons, if_neg (by rw [hd]; exact Bool.false_ne_true)]
  | cons c rest ih =>
    rw [List.all_cons, Bool.and_eq_true] at h
    rw [List.cons_append, List.takeWhile_cons, if_pos h.1, ih h.2]

theorem splitAtChar_all (sep : Char) (l : Str)
    (h : l.all (fun c => !(decide (c = sep))) = true) :
    splitAtChar sep l = [l] := by
  induction l with
  | nil => rfl
  | cons c rest ih =>
    rw [List.all_cons, Bool.and_eq_true] at h
    have hc : ¬(c = sep) := by
      have := h.1
      simp only [Bool.not_eq_true'] at this
      exact of_decide_eq_false this
    unfold splitAtChar
    rw [if_neg hc, ih h.2]

theorem splitAtChar_delim (sep : Char) (n r : Str)
    (hn : n.all (fun c => !(decide (c = sep))) = true)
    (hr : r.all (fun c => !(decide (c = sep))) = true) :
    splitAtChar sep (n ++ sep :: r) = [n, r] := by
  induction n with
  | nil =>
    rw [List.nil_append]
    unfold splitAtChar
    rw [if_pos rfl, splitAtChar_all sep r hr]
  | cons c rest ih =>
    rw [List.all_cons, Bool.and_eq_true] at hn
    have hc : ¬(c = sep) := by
      have := hn.1
      simp only [Bool.not_eq_true'] at this
      exact of_decide_eq_false this
    rw [List.cons_append]
    unfold splitAtChar
    rw [if_neg hc, ih hn.2]

theorem any_ne_nil (p : Char → Bool) (l : Str) (h : l.any p = true) : l.isEmpty = false := by
  cases l with
  | nil => cases h
  | cons c rest => rfl

def verStr (v : Option Str) : Str :=
  match v with
  | some r => '@' :: r
  | none => []

theorem specToString_github (n : Str) (v : Option Str) :
    specToString { registry := .github, name := n, version := v } = n ++ verStr v := rfl

theorem specToString_npm (n : Str) (v : Option Str) :
    specToString { registry := .npm, name := n, version := v }
      = str "npm:" ++ (n ++ verStr v) := rfl

theorem specToString_pypi (n : Str) (v : Option Str) :
    specToString { registry := .pypi, name := n, version := v }
      = str "pypi:" ++ (n ++ verStr v) := rfl

theorem specToString_crates (n : Str) (v : Option Str) :
    specToString { registry := .crates, name := n, version := v }
      = str "crates:" ++ (n ++ verStr v) := rfl

-- ─── C3 ──────────────────────────────────────────────────────────────────────

/-- C3 counterexample: five parser-produced specifications whose
canonical string re-parses to a different specification (or fails):
a github name colliding with a registry prefix, a pypi version starting
with an equals sign, a pypi name that trims to empty, a github name
starting with an at sign, and a github name with a leading space. -/
theorem C3_round_trip_counterexample :
    (parseSpecSync (str "github:npm:foo/bar")
        = .ok { registry := .github, name := str "npm:foo/bar", version := none }
      ∧ parseSpecSync (specToString
          { registry := .github, name := str "npm:foo/bar", version := none })
        = .ok { registry := .npm, name := str "foo/bar", version := none })
    ∧ (parseSpecSync (str "pypi:a@==x")
        = .ok { registry := .pypi, name := str "a", version := some (str "=x") }
      ∧ parseSpecSync (specToString
          { registry := .pypi, name := str "a", version := some (str "=x") })
        = .ok { registry := .pypi, name := str "a", version := some (str "x") })
    ∧ (parseSpecSync (str "pypi: @1")
        = .ok { registry := .pypi, name := [], version := some (str "1") }
      ∧ parseSpecSync (specToString
          { registry := .pypi, name := [], version := some (str "1") })
        = .error "Invalid PyPI package spec")
    ∧ (parseSpecSync (str "github:@a/b")
        = .ok { registry := .github, name := str "@a/b", version := none }
      ∧ parseSpecSync (specToString
          { registry := .github, name := str "@a/b", version := none })
        = .ok { registry := .npm, name := str "@a/b", version := none })
    ∧ (parseSpecSync (str "github: a/b")
        = .ok { registry := .github, name := str " a/b", version := none }
      ∧ parseSpecSync (specToString
          { registry := .github, name := str " a/b", version := none })
        = .ok { registry := .github, name := str "a/b", version := none }) := by
  exact ⟨⟨rfl, rfl⟩, ⟨rfl, rfl⟩, ⟨rfl, rfl⟩, ⟨rfl, rfl⟩, ⟨rfl, rfl⟩⟩

/-- Per-registry side conditions under which the round trip holds (the
families excluded are exactly those of the counterexample: dispatch
collisions of the serialized form, delimiter collisions in names and
versions, whitespace trimmed away on re-parse, and version shapes the
grammar cannot reproduce). -/
def roundTripCond (s : PackageSpec) : Prop :=
  trimStr (specToString s) = specToString s ∧
  match s.registry with
  | .github =>
    s.name.any (fun c => decide (c = '/')) = true ∧
    s.name.all (fun c => !(decide (c = '@') || decide (c = '#'))) = true ∧
    lowerStr s.name = s.name ∧
    startsWithStr (str "npm:") (specToString s) = false ∧
    startsWithStr (str "pypi:") (specToString s) = false ∧
    startsWithStr (str "pip:") (specToString s) = false ∧
    startsWithStr (str "crates:") (specToString s) = false ∧
    startsWithStr (str "cargo:") (specToString s) = false ∧
    startsWithStr (str "rust:") (specToString s) = false ∧
    startsWithStr (str "github:") (specToString s) = false ∧
    (specToString s).head? ≠ some '@' ∧
    (match s.version with
     | none => True
     | some r => r.isEmpty = false ∧ r.all jsDot = true)
  | .npm =>
    (if s.name.head? = some '@' then
        s.name.tail.isEmpty = false ∧
        s.name.tail.all (fun c => !(decide (c = '@'))) = true ∧
        (match s.version with
         | none => True
         | some r => r.isEmpty = false ∧ r.all jsDot = true)
     else
        s.name.isEmpty = false ∧
        s.name.all (fun c => !(decide (c = '@'))) = true ∧
        (match s.version with
         | none => True
         | some r => r.all (fun c => !(decide (c = '@'))) = true))
  | .pypi =>
    s.name.isEmpty = false ∧
    s.name.all (fun c => !(decide (c = '@') || decide (c = '='))) = true ∧
    trimStr s.name = s.name ∧
    (match s.version with
     | none => True
     | some r => r.isEmpty = false ∧ r.all jsDot = true ∧ r.head? ≠ some '=' ∧
         trimStr r = r)
  | .crates =>
    s.name.isEmpty = false ∧
    s.name.all (fun c => !(decide (c = '@'))) = true ∧
    trimStr s.name = s.name ∧
    (match s.version with
     | none => True
     | some r => r.all (fun c => !(decide (c = '@'))) = true ∧ trimStr r = r)

theorem startsWith_append (p t : Str) : startsWithStr p (p ++ t) = true := by
  show List.isPrefixOf _ _ = true
  rw [List.isPrefixOf_iff_prefix]
  exact List.prefix_append _ _

theorem startsWith_ne_head (a b : Char) (p l : Str) (h : ¬(a = b)) :
    startsWithStr (a :: p) (b :: l) = false := by
  unfold startsWithStr
  rw [List.isPrefixOf]
  simp [h]

theorem drop_append_len (p t : Str) : (p ++ t).drop p.length = t := List.drop_left _ _

/-- C3 amended: parsing the two concrete example strings yields the
stated specifications, and re-serializing then re-parsing yields an
equal specification for every specification satisfying the per-registry
side conditions of roundTripCond (which every parser-produced
specification outside the counterexample families satisfies): the
serialized form is trim-stable and dispatches back to the same registry
parser, names and versions avoid the delimiter characters of their
grammar, github names are lowercase slash-containing and neither begin
with an at sign nor collide with a registry prefix, pypi and crates
names are nonempty and trimmed, and versions have shapes the grammar
can reproduce. -/
theorem C3_round_trip_amended :
    parseSpecSync (str "vercel/next.js@v14.0.0")
      = .ok { registry := .github, name := str "vercel/next.js",
              version := some (str "v14.0.0") }
    ∧ parseSpecSync (str "npm:@effect/cli@0.73.0")
      = .ok { registry := .npm, name := str "@effect/cli", version := some (str "0.73.0") }
    ∧ ∀ s : PackageSpec, roundTripCond s →
        parseSpecSync (specToString s) = .ok s := by
  refine ⟨rfl, rfl, ?_⟩
  intro s hc
  obtain ⟨reg, n, v⟩ := s
  cases reg with
  | github =>

    unfold roundTripCond at hc
    rw [specToString_github] at hc ⊢
    dsimp only at hc
    obtain ⟨htrim, hslash, hall, hlower, hp1, hp2, hp3, hp4, hp5, hp6, hp7, hhead, hver⟩ := hc
    have hn : n.isEmpty = false := any_ne_nil _ n hslash
    have hheadb : decide ((n ++ verStr v).head? = some '@') = false := decide_eq_false hhead
    unfold parseSpecSync
    dsimp only
    rw [htrim, hp1, hp2, hp3, hp4, hp5, hp6, hp7, hheadb]
    simp only [Bool.false_eq_true, Bool.or_self, if_false, Bool.not_false, List.any_append,
      hslash, Bool.true_or, Bool.true_and, if_true]
    -- now at parseGithubSpec (n ++ verStr v)
    unfold parseGithubSpec githubRefMatch
    cases v with
    | none =>
      dsimp only [verStr]
      rw [List.append_nil]
      rw [takeWhile_all _ n hall, List.drop_length]
      dsimp only
      rw [hslash]
      simp only [Bool.not_true, Bool.false_eq_true, if_false, hlower]

    | some r =>
      dsimp only [verStr]
      rw [takeWhile_append_delim _ n '@' r hall rfl]
      rw [List.drop_left]
      obtain ⟨hrne, hrjs⟩ := hver
      simp only [hrne, hrjs, hn, hslash, hlower, Bool.not_false, Bool.not_true, Bool.and_true,
        Bool.true_and, Bool.and_self, Bool.false_eq_true, if_true, if_false]
  | npm =>

    unfold roundTripCond at hc
    rw [specToString_npm] at hc ⊢
    dsimp only at hc
    obtain ⟨htrim, hrest⟩ := hc
    unfold parseSpecSync
    dsimp only
    rw [htrim, startsWith_append]
    simp only [if_true]
    rw [show (4 : Nat) = (str "npm:").length from rfl, drop_append_len]
    unfold parseNpmSpec
    cases n with
    | nil =>
      rw [if_neg (by simp)] at hrest
      cases hrest.1
    | cons c t =>
      by_cases hat : c = '@'
      · subst hat
        rw [if_pos (show List.head? ('@' :: t) = some '@' from rfl)] at hrest
        obtain ⟨htne, htall, hver⟩ := hrest
        simp only [List.tail_cons] at htne htall
        rw [List.cons_append,
          if_pos (show List.head? ('@' :: (t ++ verStr v)) = some '@' from rfl)]
        show (match npmScopedMatch (t ++ verStr v) with
          | none => (Except.error "Invalid scoped npm package spec" : ParseResult)
          | some (name, version) =>
            .ok { registry := .npm, name := name, version := version }) = _
        unfold npmScopedMatch
        dsimp only
        cases v with
        | none =>
          rw [show verStr none = [] from rfl, List.append_nil]
          rw [takeWhile_all _ t htall, htne, List.drop_length]
          simp only [Bool.not_false, if_false, Bool.false_eq_true, if_true]
        | some r =>
          obtain ⟨hrne, hrjs⟩ := hver
          rw [show verStr (some r) = '@' :: r from rfl]
          rw [takeWhile_append_delim _ t '@' r htall rfl, htne, List.drop_left]
          simp only [hrne, hrjs, Bool.not_false, Bool.and_true, Bool.true_and, if_true,
            Bool.false_eq_true, if_false]
      · rw [if_neg (by rw [List.head?_cons]; intro g; exact hat (Option.some.inj g))] at hrest
        obtain ⟨hne, hall, hver⟩ := hrest
        rw [List.cons_append]
        rw [if_neg (by rw [List.head?_cons]; intro g; exact hat (Option.some.inj g))]
        rw [← List.cons_append]
        cases v with
        | none =>
          rw [show verStr none = [] from rfl, List.append_nil]
          rw [splitAtChar_all '@' (c :: t) hall]
          rw [if_neg (by simp)]
          simp only [List.headD_cons, hne, Bool.false_eq_true, if_false,
            List.getElem?_cons_succ, List.getElem?_nil]
        | some r =>
          rw [show verStr (some r) = '@' :: r from rfl]
          rw [splitAtChar_delim '@' (c :: t) r hall hver]
          rw [if_neg (by simp)]
          simp only [List.headD_cons, hne, Bool.false_eq_true, if_false,
            List.getElem?_cons_succ, List.getElem?_cons_zero]
  | pypi =>

    unfold roundTripCond at hc
    rw [specToString_pypi] at hc ⊢
    dsimp only at hc
    obtain ⟨htrim, hne, hall, htn, hver⟩ := hc
    unfold parseSpecSync
    dsimp only
    rw [htrim]
    have hnpm : startsWithStr (str "npm:") (str "pypi:" ++ (n ++ verStr v)) = false := by
      show startsWithStr ('n' :: str "pm:") ('p' :: (str "ypi:" ++ (n ++ verStr v))) = false
      exact startsWith_ne_head _ _ _ _ (by decide)
    rw [hnpm]
    simp only [Bool.false_eq_true, if_false]
    rw [startsWith_append]
    simp only [Bool.true_or, if_true]
    rw [show (5 : Nat) = (str "pypi:").length from rfl, drop_append_len]
    unfold parsePypiSpec pypiMatch
    dsimp only
    cases v with
    | none =>
      rw [show verStr none = [] from rfl, List.append_nil]
      rw [takeWhile_all _ n hall, hne, List.drop_length]
      simp only [Bool.false_eq_true, if_false, hne, htn, Option.map_none']
    | some r =>
      obtain ⟨hrne, hrjs, hrh, htr⟩ := hver
      rw [show verStr (some r) = '@' :: r from rfl]
      rw [takeWhile_append_delim _ n '@' r hall rfl, hne, List.drop_left]
      simp only [Bool.false_eq_true, if_false]
      rw [if_neg hrh]
      simp only [hrne, hrjs, Bool.not_false, Bool.and_self, if_true, hne,
        Bool.false_eq_true, if_false, htn, htr, Option.map_some']
  | crates =>

    unfold roundTripCond at hc
    rw [specToString_crates] at hc ⊢
    dsimp only at hc
    obtain ⟨htrim, hne, hall, htn, hver⟩ := hc
    unfold parseSpecSync
    dsimp only
    rw [htrim]
    have hnpm : startsWithStr (str "npm:") (str "crates:" ++ (n ++ verStr v)) = false := by
      show startsWithStr ('n' :: str "pm:") ('c' :: (str "rates:" ++ (n ++ verStr v))) = false
      exact startsWith_ne_head _ _ _ _ (by decide)
    have hpypi : startsWithStr (str "pypi:") (str "crates:" ++ (n ++ verStr v)) = false := by
      show startsWithStr ('p' :: str "ypi:") ('c' :: (str "rates:" ++ (n ++ verStr v))) = false
      exact startsWith_ne_head _ _ _ _ (by decide)
    have hpip : startsWithStr (str "pip:") (str "crates:" ++ (n ++ verStr v)) = false := by
      show startsWithStr ('p' :: str "ip:") ('c' :: (str "rates:" ++ (n ++ verStr v))) = false
      exact startsWith_ne_head _ _ _ _ (by decide)
    rw [hnpm, hpypi, hpip]
    simp only [Bool.false_eq_true, if_false, Bool.or_self, Bool.false_or]
    rw [startsWith_append]
    simp only [Bool.true_or, if_true]
    have hidx : (str "crates:" ++ (n ++ verStr v)).findIdx (fun c => decide (c = ':')) = 6 := by
      show (('c' :: 'r' :: 'a' :: 't' :: 'e' :: 's' :: ':' :: []) ++ (n ++ verStr v)).findIdx
        (fun c => decide (c = ':')) = 6
      simp [List.findIdx_cons]
    rw [hidx]
    rw [show (6 : Nat) + 1 = (str "crates:").length from rfl, drop_append_len]
    unfold parseCratesSpec
    dsimp only
    cases v with
    | none =>
      rw [show verStr none = [] from rfl, List.append_nil]
      rw [splitAtChar_all '@' n hall]
      rw [if_neg (by simp)]
      simp only [List.headD_cons, hne, Bool.false_eq_true, if_false,
        List.getElem?_cons_succ, List.getElem?_nil, htn, Option.map_none']
    | some r =>
      obtain ⟨hrall, htr⟩ := hver
      rw [show verStr (some r) = '@' :: r from rfl]
      rw [splitAtChar_delim '@' n r hall hrall]
      rw [if_neg (by simp)]
      simp only [List.headD_cons, hne, Bool.false_eq_true, if_false,
        List.getElem?_cons_succ, List.getElem?_cons_zero, htn, htr, Option.map_some']

/-- Witness for the amended C3 at the concrete github example. -/
theorem C3_round_trip_amended_witness :
    parseSpecSync (specToString
      { registry := .github, name := str "vercel/next.js", version := some (str "v14.0.0") })
      = .ok { registry := .github, name := str "vercel/next.js",
              version := some (str "v14.0.0") } := by
  refine C3_round_trip_amended.2.2 _ ?_
  unfold roundTripCond
  refine ⟨rfl, rfl, rfl, rfl, rfl, rfl, rfl, rfl, rfl, rfl, rfl, by decide, rfl, rfl⟩
